import Mathlib

/-! # Debian buildinfo processor and parser

A shallow embedding of

* `pkg/handler/processor/buildinfo/buildinfo.go` (`ValidateSchema`), and
* `pkg/ingestor/parser/buildinfo/parser_buildinfo.go`
  (`parsebuildInfoBlob`, `getTopLevelPackage`, `getDependencies`,
  `GetPredicates`, `guacBuildInfoPkgPurl`).

Go strings are modelled as lists of Unicode code points (valid UTF-8 text);
every separator the code searches for is ASCII, so searching by code point
and searching by byte agree.  Go errors are modelled by their message.
-/

set_option maxRecDepth 100000

namespace Buildinfo

/-- A Go `string`, as the list of its code points. -/
abbrev Str := List Char

deriving instance DecidableEq for Except

/-! ## The Go `strings` functions used by the code -/

/-- Cut `s` around the first occurrence of `sep` (`strings.Cut`, which is how
`strings.Index` is used by `SplitN`): the text before it and the text after it. -/
def cut (sep : Str) : Str → Option (Str × Str)
  | [] => if sep = [] then some ([], []) else none
  | c :: cs =>
    if sep <+: c :: cs then some ([], (c :: cs).drop sep.length)
    else match cut sep cs with
      | some (a, b) => some (c :: a, b)
      | none => none

/-- The function `strings.SplitN(s, sep, n)` for `n ≥ 0` and a non-empty `sep`:
at most `n` pieces, the last one being the unsplit remainder. -/
def SplitN (s sep : Str) : Nat → List Str
  | 0 => []
  | 1 => [s]
  | n + 2 =>
    match cut sep s with
    | none => [s]
    | some (a, b) => a :: SplitN b sep (n + 1)

/-- The function `strings.Split(s, sep)` for a non-empty `sep`: all the pieces.
A string of length `k` has at most `k` occurrences of `sep`, so `k + 1`
pieces are never a truncation. -/
def Split (s sep : Str) : List Str := SplitN s sep (s.length + 1)

/-- The function `strings.Contains(s, substr)`. -/
def Contains (s substr : Str) : Bool := decide (substr <:+: s)

/-- Replace the first `n` non-overlapping occurrences of a non-empty `old`. -/
def replaceN (old new : Str) : Nat → Str → Str
  | 0, s => s
  | n + 1, s =>
    match cut old s with
    | none => s
    | some (a, b) => a ++ new ++ replaceN old new n b

/-- The function `strings.ReplaceAll(s, old, new)` for a non-empty `old`. -/
def ReplaceAll (s old new : Str) : Str := replaceN old new s.length s

/-- The predicate `unicode.IsSpace`: the code points with the Unicode
White_Space property. -/
def isSpace (c : Char) : Bool :=
  let n := c.toNat
  (0x09 ≤ n && n ≤ 0x0d) || n == 0x20 || n == 0x85 || n == 0xa0 || n == 0x1680 ||
  (0x2000 ≤ n && n ≤ 0x200a) || n == 0x2028 || n == 0x2029 || n == 0x202f ||
  n == 0x205f || n == 0x3000

/-- Worker of `Fields`: `cur` is the field being read, reversed. -/
def fieldsAux : Str → Str → List Str
  | [], cur => if cur = [] then [] else [cur.reverse]
  | c :: cs, cur =>
    if isSpace c then
      (if cur = [] then fieldsAux cs [] else cur.reverse :: fieldsAux cs [])
    else fieldsAux cs (c :: cur)

/-- The function `strings.Fields(s)`: the maximal runs of non-space code points. -/
def Fields (s : Str) : List Str := fieldsAux s []

/-- The function `strings.TrimRight(s, cutset)`: drop every trailing code point
that belongs to `cutset`. -/
def TrimRight (s cutset : Str) : Str :=
  (s.reverse.dropWhile (fun c => decide (c ∈ cutset))).reverse

/-- The function `strings.ToLower(s)`, given the code point mapping
`unicode.ToLower`. -/
def ToLower (lower : Char → Char) (s : Str) : Str := s.map lower

/-! ## The processor: `ValidateSchema` -/

/-- The type `processor.DocumentType`, a Go string type. -/
abbrev DocumentType := Str

/-- The fields of `processor.Document` that the code reads. -/
structure Document where
  Blob : Str
  /-- The field `Type` of the Go struct. -/
  Typ : DocumentType
  deriving DecidableEq, Repr

/-- The keys of the map literal `expectedFields`, in the order they are written. -/
def expectedKeys : List Str :=
  ["Source".toList, "Binary".toList, "Version".toList,
   "Installed-Build-Depends".toList, "Checksums-Md5".toList,
   "Checksums-Sha1".toList, "Build-Origin".toList,
   "Build-Architecture".toList, "Build-Date".toList, "Build-Path".toList]

/-- The map literal `expectedFields`: every key is bound to `false`. -/
def expectedFields : List (Str × Bool) := expectedKeys.map (fun k => (k, false))

/-- The map read `m[k]` of a `map[string]bool`: the value and whether the key is there. -/
def mapGet (m : List (Str × Bool)) (k : Str) : Option Bool := m.lookup k

/-- The map write `m[k] = true`, performed only when `k` is already a key. -/
def markFound (m : List (Str × Bool)) (k : Str) : List (Str × Bool) :=
  m.map (fun e => if e.1 = k then (e.1, true) else e)

/-- The first loop of `ValidateSchema`: one step per line. -/
def scanLine (m : List (Str × Bool)) (line : Str) : List (Str × Bool) :=
  let parts := SplitN line ":".toList 2
  let field := parts.headD []
  match mapGet m field with
  | some _ => markFound m field
  | none => m

/-- The text of `fmt.Errorf("field %s is missing\n in buildinfo", field)`. -/
def missingFieldError (field : Str) : Str :=
  "field ".toList ++ field ++ " is missing\n in buildinfo".toList

/-- The text of the error for a document of another type. -/
def documentTypeError (expected actual : DocumentType) : Str :=
  "expected document type: ".toList ++ expected ++
    ", actual document type: ".toList ++ actual

/-- The second loop of `ValidateSchema`: `range` over the map, visiting the keys
in the order `order`; the first key not found ends the function. -/
def reportMissing (m : List (Str × Bool)) : List Str → Except Str Unit
  | [] => .ok ()
  | field :: rest =>
    if mapGet m field = some true then reportMissing m rest
    else .error (missingFieldError field)

/-- The method `BuildInfoProcessor.ValidateSchema`.  `DocumentBuildInfo` is the
constant `processor.DocumentBuildInfo`; `order` is the order in which the
final `range` visits the keys of the map, which Go leaves unspecified: any
permutation of `expectedKeys`. -/
def ValidateSchema (DocumentBuildInfo : DocumentType) (order : List Str)
    (d : Document) : Except Str Unit :=
  if d.Typ ≠ DocumentBuildInfo then
    .error (documentTypeError DocumentBuildInfo d.Typ)
  else
    let lines := Split d.Blob "\n".toList
    let found := lines.foldl scanLine expectedFields
    reportMissing found order

/-! ## The parser: data -/

/-- The type `time.Time`, as the number of seconds after Go's zero time, so
that the zero value `time.Time{}` is `0`. -/
abbrev Time := Int

/-- The record `BuildInfo`. -/
structure BuildInfo where
  InstalledBuildDepends : List Str
  Source : Str
  Binary : List Str
  Version : Str
  Architecture : Str
  Distro : Str
  BuildDate : Time
  deriving DecidableEq, Repr

/-- The zero value of `BuildInfo` (`var buildInfo BuildInfo`). -/
def BuildInfo.zero : BuildInfo := ⟨[], [], [], [], [], [], 0⟩

/-- The fields of `model.SourceInputSpec` that the code sets. -/
structure SourceInputSpec where
  /-- The field `Type` of the Go struct. -/
  Typ : Str
  Namespace : Str
  Name : Str
  deriving DecidableEq, Repr

/-- Modelled from the spec: `model.PkgInputSpec` is declared in the generated
client, outside the files at hand; the spec's PackageReference has a type, a
namespace, a name, a version and qualifiers. -/
structure PkgInputSpec where
  /-- The field `Type` of the Go struct. -/
  Typ : Str
  Namespace : Str
  Name : Str
  Version : Str
  Qualifiers : List (Str × Str)
  deriving DecidableEq, Repr

/-- The result type of `common.GetMatchFlagsFromPkgInput`. -/
structure MatchFlags where
  Pkg : Str
  deriving DecidableEq, Repr

/-- The functions of the repository that the parser calls and that live in
other packages: `asmhelpers.SanitizeString`, `asmhelpers.PurlToPkg` and
`common.GetMatchFlagsFromPkgInput`.  The parser is embedded over an arbitrary
choice of them. -/
structure Helpers where
  SanitizeString : Str → Str
  PurlToPkg : Str → Except Str PkgInputSpec
  GetMatchFlagsFromPkgInput : PkgInputSpec → MatchFlags

/-- The two functions of the Go standard library whose tables are taken as
given: `unicode.ToLower`, and `time.Parse(time.RFC1123Z, ·)`, which is `none`
when it returns an error (the time it returns is then the zero time). -/
structure StdLib where
  unicodeToLower : Char → Char
  parseRFC1123Z : Str → Option Time

/-- The fields of `buildinfoParser` that the code reads or writes;
`identifierStrings` is the slice `identifierStrings.PurlStrings`, and the
maps are lists of bindings. -/
structure buildinfoParser where
  doc : Option Document
  source : SourceInputSpec
  binaries : List (Str × List PkgInputSpec)
  dependencies : List (Str × List PkgInputSpec)
  identifierStrings : List Str
  buildinfo : BuildInfo
  deriving DecidableEq, Repr

/-- The read `m[k]` of a map whose values are slices: `nil` for a missing key. -/
def sliceMapGet {α : Type} (m : List (Str × List α)) (k : Str) : List α :=
  (m.lookup k).getD []

/-- The write `m[k] = v` of a map whose values are slices. -/
def sliceMapSet {α : Type} (m : List (Str × List α)) (k : Str) (v : List α) :
    List (Str × List α) :=
  if (m.lookup k).isSome then m.map (fun e => if e.1 = k then (k, v) else e)
  else m ++ [(k, v)]

/-- The constructor `NewBuildInfoParser`. -/
def NewBuildInfoParser : buildinfoParser :=
  { doc := none, source := ⟨[], [], []⟩, binaries := [], dependencies := [],
    identifierStrings := [], buildinfo := BuildInfo.zero }

/-! ## The parser: `parsebuildInfoBlob` -/

/-- The body of the loop of `parsebuildInfoBlob`, for one line.  The diagnostic
printed for a date that does not parse is not part of the state. -/
def parseLine (std : StdLib) (buildInfo : BuildInfo) (line : Str) : BuildInfo :=
  let parts := SplitN line ": ".toList 2
  let buildInfo :=
    if parts.length ≠ 2 ∧ Contains (parts.getD 0 []) "(=".toList = true then
      { buildInfo with
        InstalledBuildDepends :=
          buildInfo.InstalledBuildDepends ++ [ReplaceAll (parts.getD 0 []) " ".toList []] }
    else buildInfo
  if parts.length = 2 then
    let field := parts.getD 0 []
    let value := parts.getD 1 []
    if field = "Source".toList then { buildInfo with Source := value }
    else if field = "Binary".toList then { buildInfo with Binary := Fields value }
    else if field = "Version".toList then { buildInfo with Version := value }
    else if field = "Build-Architecture".toList then
      { buildInfo with Architecture := value }
    else if field = "Build-Origin".toList then
      { buildInfo with Distro := ToLower std.unicodeToLower value }
    else if field = "Build-Date".toList then
      { buildInfo with BuildDate := (std.parseRFC1123Z value).getD 0 }
    else buildInfo
  else buildInfo

/-- The function `parsebuildInfoBlob`: the record and the error, which is
always `nil`. -/
def parsebuildInfoBlob (std : StdLib) (p : Str) : BuildInfo × Option Str :=
  let lines := Split p "\n".toList
  (lines.foldl (parseLine std) BuildInfo.zero, none)

/-! ## The parser: identifiers, packages and dependencies -/

/-- The function `guacBuildInfoPkgPurl`. -/
def guacBuildInfoPkgPurl (SanitizeString : Str → Str)
    (componentName version arch distro : Str) : Str :=
  let escapedName := SanitizeString componentName
  let typeNamespaceString := "pkg:deb/".toList ++ distro ++ "/".toList
  if version ≠ [] ∧ arch ≠ [] then
    typeNamespaceString ++ escapedName ++ "@".toList ++ version ++ "?arch=".toList ++ arch
  else if version ≠ [] then
    typeNamespaceString ++ escapedName ++ "@".toList ++ version
  else []

/-- The loop of `getTopLevelPackage` over the binaries still to visit: the
parser as the loop leaves it, and the error returned (`none` for `nil`). -/
def topLevelLoop (h : Helpers) : List Str → buildinfoParser → buildinfoParser × Option Str
  | [], b => (b, none)
  | binary :: rest, b =>
    if binary ≠ [] then
      let purl := guacBuildInfoPkgPurl h.SanitizeString binary b.buildinfo.Version
        b.buildinfo.Architecture b.buildinfo.Distro
      match h.PurlToPkg purl with
      | .error err => (b, some err)
      | .ok pkg =>
        topLevelLoop h rest
          { b with
            identifierStrings := b.identifierStrings ++ [purl]
            binaries := sliceMapSet b.binaries purl (sliceMapGet b.binaries purl ++ [pkg]) }
    else (b, some "no binary found in buildinfo document".toList)

/-- The method `getTopLevelPackage`. -/
def getTopLevelPackage (h : Helpers) (b : buildinfoParser) : buildinfoParser × Option Str :=
  let b :=
    if b.buildinfo.Source ≠ [] then
      { b with
        source :=
          { Typ := "deb".toList
            Namespace := b.buildinfo.Distro ++ "-src".toList
            Name := b.buildinfo.Source } }
    else b
  topLevelLoop h b.buildinfo.Binary b

/-- The text of `fmt.Errorf("failed to parse dependency %s", dep)`. -/
def dependencyError (dep : Str) : Str := "failed to parse dependency ".toList ++ dep

/-- The loop of `getDependencies` over the specs still to visit. -/
def dependenciesLoop (h : Helpers) : List Str → buildinfoParser → buildinfoParser × Option Str
  | [], b => (b, none)
  | dep :: rest, b =>
    let depParts := SplitN dep "(=".toList 2
    if depParts.length ≠ 2 then (b, some (dependencyError dep))
    else
      let depName := depParts.getD 0 []
      let depVersion := TrimRight (depParts.getD 1 []) "),".toList
      let purl := guacBuildInfoPkgPurl h.SanitizeString depName depVersion
        b.buildinfo.Architecture b.buildinfo.Distro
      match h.PurlToPkg purl with
      | .error err => (b, some err)
      | .ok depPackage =>
        dependenciesLoop h rest
          { b with
            dependencies :=
              sliceMapSet b.dependencies "InstalledBuildDepends".toList
                (sliceMapGet b.dependencies "InstalledBuildDepends".toList ++ [depPackage]) }

/-- The method `getDependencies`. -/
def getDependencies (h : Helpers) (b : buildinfoParser) : buildinfoParser × Option Str :=
  dependenciesLoop h b.buildinfo.InstalledBuildDepends b

/-- The method `Parse`. -/
def Parse (std : StdLib) (h : Helpers) (b : buildinfoParser) (doc : Document) :
    buildinfoParser × Option Str :=
  let b := { b with doc := some doc }
  match parsebuildInfoBlob std doc.Blob with
  | (_, some err) => (b, some ("failed to parse buildinfo document: ".toList ++ err))
  | (buildinfo, none) =>
    let b := { b with buildinfo := buildinfo }
    match getTopLevelPackage h b with
    | (b, some err) => (b, some err)
    | (b, none) =>
      match getDependencies h b with
      | (b, some err) => (b, some err)
      | (b, none) => (b, none)

/-! ## The parser: `GetPredicates` -/

/-- The input spec `model.HasSourceAtInputSpec`. -/
structure HasSourceAtInputSpec where
  KnownSince : Time
  Justification : Str
  Origin : Str
  Collector : Str
  deriving DecidableEq, Repr

/-- The predicate `assembler.HasSourceAtIngest`. -/
structure HasSourceAtIngest where
  Pkg : PkgInputSpec
  Src : SourceInputSpec
  HasSourceAt : HasSourceAtInputSpec
  PkgMatchFlag : MatchFlags
  deriving DecidableEq, Repr

/-- Modelled from the spec: `assembler.IsDependencyIngest` is declared outside
the files at hand; the spec's IsDependency has a package, a dependency and a
justification. -/
structure IsDependencyIngest where
  Pkg : PkgInputSpec
  DepPkg : PkgInputSpec
  Justification : Str
  deriving DecidableEq, Repr

/-- The fields of `assembler.IngestPredicates` that the code appends to. -/
structure IngestPredicates where
  HasSourceAt : List HasSourceAtIngest
  IsDependency : List IsDependencyIngest
  deriving DecidableEq, Repr

/-- Modelled from the spec: `common.CreateTopLevelIsDeps` is not among the
files at hand; the spec has one IsDependency predicate from the binary to
every parsed dependency, in declaration order. -/
def CreateTopLevelIsDeps (toplevel : PkgInputSpec)
    (packages : List (Str × List PkgInputSpec)) (justification : Str) :
    List IsDependencyIngest :=
  (packages.map Prod.snd).flatten.map (fun dep => ⟨toplevel, dep, justification⟩)

/-- The body of the inner loop of `GetPredicates`, for one package of
`b.binaries[purl]`.  The two `fmt.Println` calls are not part of the state. -/
def predicatesOfBinary (h : Helpers) (b : buildinfoParser) (preds : IngestPredicates)
    (binary : PkgInputSpec) : IngestPredicates :=
  let a : HasSourceAtIngest :=
    { Pkg := binary
      Src := b.source
      HasSourceAt :=
        { KnownSince := b.buildinfo.BuildDate
          Justification := "Binaries are built from source package".toList
          Origin := "Debian BuildInfo Source".toList
          Collector := "Buildinfo file".toList }
      PkgMatchFlag := h.GetMatchFlagsFromPkgInput binary }
  let x := [a]
  { HasSourceAt := preds.HasSourceAt ++ x
    IsDependency := preds.IsDependency ++
      CreateTopLevelIsDeps binary b.dependencies "Debian BuildInfo Dependency".toList }

/-- The method `GetPredicates`. -/
def GetPredicates (h : Helpers) (b : buildinfoParser) : IngestPredicates :=
  b.identifierStrings.foldl
    (fun preds purl => (sliceMapGet b.binaries purl).foldl (predicatesOfBinary h b) preds)
    { HasSourceAt := [], IsDependency := [] }

/-! ## Notions used to state the properties -/

/-- Whether `field` is the field name of some line of `blob`, the way
`ValidateSchema` reads field names. -/
def fieldSeen (blob field : Str) : Bool :=
  (Split blob "\n".toList).any
    (fun line => decide ((SplitN line ":".toList 2).headD [] = field))

/-- The first key of `order` that is not a field name of any line of `blob`. -/
def firstMissing (blob : Str) (order : List Str) : Option Str :=
  order.find? (fun k => !fieldSeen blob k)

/-- A buildinfo text with every required field, two binaries and two
build dependencies. -/
def sampleBlob : Str :=
  ("Source: attr\nBinary: attr attr-udeb\nVersion: 1:2.5.1-1\n" ++
   "Checksums-Md5:\nChecksums-Sha1:\nBuild-Origin: Debian\n" ++
   "Build-Architecture: amd64\nBuild-Date: Mon, 02 Jan 2006 15:04:05 -0700\n" ++
   "Build-Path: /build/attr\nInstalled-Build-Depends:\n" ++
   " gcc (= 10.2.1-6),\n make (= 4.3-4)").toList

/-- The text `sampleBlob` without its `Build-Path` line. -/
def sampleBlobNoPath : Str :=
  ("Source: attr\nBinary: attr attr-udeb\nVersion: 1:2.5.1-1\n" ++
   "Checksums-Md5:\nChecksums-Sha1:\nBuild-Origin: Debian\n" ++
   "Build-Architecture: amd64\nBuild-Date: Mon, 02 Jan 2006 15:04:05 -0700\n" ++
   "Installed-Build-Depends:\n" ++
   " gcc (= 10.2.1-6),\n make (= 4.3-4)").toList

/-- A type tag standing for `processor.DocumentBuildInfo` in the examples. -/
def sampleTag : DocumentType := "BUILDINFO".toList

/-- The value of the qualifier `arch` of a package, empty when it has none. -/
def archOf (pkg : PkgInputSpec) : Str := (pkg.Qualifiers.lookup "arch".toList).getD []

/-- What C5 asks of the helpers at one input: decomposing the identifier built
from `(n, v, a, d)` succeeds and gives back the name, the version, the arch
qualifier, the type `deb` and the namespace `d`. -/
def RoundTrips (h : Helpers) (n v a d : Str) : Prop :=
  ∃ pkg, h.PurlToPkg (guacBuildInfoPkgPurl h.SanitizeString n v a d) = .ok pkg ∧
    pkg.Name = n ∧ pkg.Version = v ∧ archOf pkg = a ∧
    pkg.Typ = "deb".toList ∧ pkg.Namespace = d

/-- The number of packages held by a map of slices. -/
def depCount (m : List (Str × List PkgInputSpec)) : Nat :=
  (m.map Prod.snd).flatten.length

/-- The map `dependencies` is empty, or binds the one key
`InstalledBuildDepends`; in both cases it holds `n` packages. -/
def DepShape (m : List (Str × List PkgInputSpec)) (n : Nat) : Prop :=
  (m = [] ∧ n = 0) ∨ ∃ l, m = [("InstalledBuildDepends".toList, l)] ∧ l.length = n

/-- A fresh parser that holds the record `r`, as `Parse` has it before it
calls `getTopLevelPackage`. -/
def freshWith (r : BuildInfo) : buildinfoParser :=
  { NewBuildInfoParser with buildinfo := r }

/-- The identifiers of the binaries of a record, in declaration order. -/
def binaryPurls (h : Helpers) (r : BuildInfo) : List Str :=
  r.Binary.map
    (fun binary => guacBuildInfoPkgPurl h.SanitizeString binary r.Version r.Architecture r.Distro)

/-- A stand-in for `asmhelpers.PurlToPkg` in the examples: it takes
`pkg:type/namespace/name@version` apart, with an optional `?arch=` qualifier,
and rejects every other text, the empty one included. -/
def samplePurlToPkg (s : Str) : Except Str PkgInputSpec :=
  match cut "pkg:".toList s with
  | some ([], rest) =>
    match cut "/".toList rest with
    | some (typ, rest) =>
      match cut "/".toList rest with
      | some (ns, rest) =>
        match cut "@".toList rest with
        | some (name, ver) =>
          match cut "?arch=".toList ver with
          | some (v, a) => .ok ⟨typ, ns, name, v, [("arch".toList, a)]⟩
          | none => .ok ⟨typ, ns, name, ver, []⟩
        | none => .error "failed to parse purl: no version".toList
      | none => .error "failed to parse purl: no name".toList
    | none => .error "failed to parse purl: no type".toList
  | _ => .error "failed to parse purl: no scheme".toList

/-- The helpers used in the examples: a sanitizer that leaves its argument
alone, and `samplePurlToPkg`. -/
def sampleHelpers : Helpers :=
  { SanitizeString := id
    PurlToPkg := samplePurlToPkg
    GetMatchFlagsFromPkgInput := fun _ => ⟨"SPECIFIC_VERSION".toList⟩ }

/-- The library functions used in the examples: `Char.toLower`, which agrees
with `unicode.ToLower` on ASCII, and a date parser that knows one date. -/
def sampleStd : StdLib :=
  { unicodeToLower := Char.toLower
    parseRFC1123Z := fun s =>
      if s = "Mon, 02 Jan 2006 15:04:05 -0700".toList then some 63271836245 else none }

/-- The record of the spec's scenario. -/
def sampleRecord : BuildInfo :=
  { InstalledBuildDepends := ["gcc(=10.2.1-6),".toList, "make(=4.3-4)".toList]
    Source := "attr".toList
    Binary := ["attr".toList, "attr-udeb".toList]
    Version := "1:2.5.1-1".toList
    Architecture := "amd64".toList
    Distro := "debian".toList
    BuildDate := 63271836245 }

/-- The record `sampleRecord` with the binary `attr` listed twice. -/
def repeatedRecord : BuildInfo :=
  { sampleRecord with Binary := ["attr".toList, "attr".toList] }

/-- A buildinfo text whose `Binary` line lists the binary `attr` twice. -/
def repeatedBlob : Str :=
  ("Source: attr\nBinary: attr attr\nVersion: 1:2.5.1-1\n" ++
   "Checksums-Md5:\nChecksums-Sha1:\nBuild-Origin: Debian\n" ++
   "Build-Architecture: amd64\nBuild-Date: Mon, 02 Jan 2006 15:04:05 -0700\n" ++
   "Build-Path: /build/attr\nInstalled-Build-Depends:\n" ++
   " gcc (= 10.2.1-6),\n make (= 4.3-4)").toList

/-- The identifier that `getDependencies` builds for the spec `dep` of the
record `r`. -/
def dependencyPurl (h : Helpers) (r : BuildInfo) (dep : Str) : Str :=
  guacBuildInfoPkgPurl h.SanitizeString ((SplitN dep "(=".toList 2).getD 0 [])
    (TrimRight ((SplitN dep "(=".toList 2).getD 1 []) "),".toList) r.Architecture r.Distro

/-- The record `sampleRecord` with a well-formed spec followed by the spec
`gcc-10`, which lacks the delimiter. -/
def malformedRecord : BuildInfo :=
  { sampleRecord with InstalledBuildDepends := ["gcc(=10.2.1-6),".toList, "gcc-10".toList] }

/-- The record `sampleRecord` with a spec that has the delimiter but no
version, followed by the spec `gcc-10`, which lacks the delimiter. -/
def emptyVersionRecord : BuildInfo :=
  { sampleRecord with InstalledBuildDepends := ["a(=".toList, "gcc-10".toList] }

/-- The value of `line` when it is split by the first `": "` into the field
name `name` and a value. -/
def fieldValue (name line : Str) : Option Str :=
  match cut ": ".toList line with
  | some (field, value) => if field = name then some value else none
  | none => none

/-- The value of the last line whose field name is `name`, if there is one. -/
def lastValue (name : Str) (lines : List Str) : Option Str :=
  (lines.filterMap (fieldValue name)).getLast?

/-- A record with its build date set to the zero time: what is left of a
record when the date is disregarded. -/
def eraseDate (r : BuildInfo) : BuildInfo := { r with BuildDate := 0 }

/-- Two lines are the same, or both are lines of the field `Build-Date`
(which may differ in the value of the date). -/
def SameButDate (l l' : Str) : Prop :=
  l = l' ∨ ((fieldValue "Build-Date".toList l).isSome = true ∧
    (fieldValue "Build-Date".toList l').isSome = true)

instance (l l' : Str) : Decidable (SameButDate l l') := by
  unfold SameButDate
  infer_instance

/-- A text with a `Build-Date` line whose value is not a date. -/
def badDateBlob : Str :=
  "Source: attr\nBuild-Date: yesterday\nVersion: 1:2.5.1-1\n gcc (= 10.2.1-6)".toList

/-- The text `badDateBlob` with a date that parses. -/
def goodDateBlob : Str :=
  ("Source: attr\nBuild-Date: Mon, 02 Jan 2006 15:04:05 -0700\n" ++
   "Version: 1:2.5.1-1\n gcc (= 10.2.1-6)").toList

/-- The `HasSourceAt` predicate that the inner loop of `GetPredicates` builds
for the package `binary`. -/
def hasSourceAtOf (h : Helpers) (b : buildinfoParser) (binary : PkgInputSpec) :
    HasSourceAtIngest :=
  { Pkg := binary
    Src := b.source
    HasSourceAt :=
      { KnownSince := b.buildinfo.BuildDate
        Justification := "Binaries are built from source package".toList
        Origin := "Debian BuildInfo Source".toList
        Collector := "Buildinfo file".toList }
    PkgMatchFlag := h.GetMatchFlagsFromPkgInput binary }

/-- The record `sampleRecord` with an empty source. -/
def noSourceRecord : BuildInfo := { sampleRecord with Source := [] }

/-- A buildinfo text whose `Binary` line lists `attr` twice and then
`attr-udeb`. -/
def tripleBlob : Str :=
  ("Source: attr\nBinary: attr attr attr-udeb\nVersion: 1:2.5.1-1\n" ++
   "Checksums-Md5:\nChecksums-Sha1:\nBuild-Origin: Debian\n" ++
   "Build-Architecture: amd64\nBuild-Date: Mon, 02 Jan 2006 15:04:05 -0700\n" ++
   "Build-Path: /build/attr\nInstalled-Build-Depends:\n" ++
   " gcc (= 10.2.1-6),\n make (= 4.3-4)").toList

/-- Modelled from the spec: `asmhelpers.PurlToPkg` is not among the files at
hand; the spec's identifier parser fails when the string cannot be decomposed
into its five parts and callers treat the empty identifier as a package that
cannot be represented, so the parser does not accept the empty identifier. -/
def RejectsEmpty (h : Helpers) : Prop := (h.PurlToPkg []).isOk = false

/-- The record `sampleRecord` with an empty version. -/
def noVersionRecord : BuildInfo := { sampleRecord with Version := [] }

/-- The function `strings.Join(elems, sep)`. -/
def Join : List Str → Str → Str
  | [], _ => []
  | [a], _ => a
  | a :: b :: rest, sep => a ++ sep ++ Join (b :: rest) sep

/-- Whether a line is one that the loop of `parsebuildInfoBlob` has no case
for: it is split by `": "` into a field name other than the six that the
`switch` knows, or it has no `": "` and does not contain `(=`. -/
def ignoredLine (line : Str) : Bool :=
  match cut ": ".toList line with
  | some (field, _) =>
    !decide (field ∈ ["Source".toList, "Binary".toList, "Version".toList,
      "Build-Architecture".toList, "Build-Origin".toList, "Build-Date".toList])
  | none => !Contains line "(=".toList

/-- A text in which every required name is followed by a colon and never by a
colon and a space. -/
def colonOnlyBlob : Str :=
  ("Source:attr\nBinary:attr attr-udeb\nVersion:1:2.5.1-1\n" ++
   "Installed-Build-Depends:\nChecksums-Md5:\nChecksums-Sha1:\n" ++
   "Build-Origin:Debian\nBuild-Architecture:amd64\nBuild-Date:today\n" ++
   "Build-Path:/build/attr").toList

/-- Modelled from the spec: `asmhelpers.PurlToPkg` is not among the files at
hand.  The spec's identifier is `pkg:`, the type, `/`, the namespace, `/`, the
name, `@`, the version and, when there is an architecture, `?arch=` and the
architecture; its identifier parser decomposes an identifier into these five
parts and fails when the string cannot be so decomposed.  The model takes the
identifier apart at the first occurrence of each separator, in this order. -/
def PurlToPkgModel (s : Str) : Except Str PkgInputSpec :=
  match cut "pkg:".toList s with
  | some ([], rest) =>
    match cut "/".toList rest with
    | some (typ, rest) =>
      match cut "/".toList rest with
      | some (ns, rest) =>
        match cut "@".toList rest with
        | some (name, ver) =>
          match cut "?arch=".toList ver with
          | some (v, a) => .ok ⟨typ, ns, name, v, [("arch".toList, a)]⟩
          | none => .ok ⟨typ, ns, name, ver, []⟩
        | none => .error ("malformed identifier: ".toList ++ s)
      | none => .error ("malformed identifier: ".toList ++ s)
    | none => .error ("malformed identifier: ".toList ++ s)
  | _ => .error ("malformed identifier: ".toList ++ s)

theorem cut_single_some (c : Char) : ∀ (s a b : Str), cut [c] s = some (a, b) →
    s = a ++ c :: b ∧ c ∉ a := by
  intro s
  induction s with
  | nil => intro a b h; simp [cut] at h
  | cons x xs ih =>
    intro a b h
    unfold cut at h
    by_cases hx : x = c
    · subst hx
      simp at h
      obtain ⟨rfl, rfl⟩ := h
      simp
    · have hp : ¬ ([c] <+: x :: xs) := by
        simp [List.prefix_cons_inj, List.cons_prefix_cons]
        intro h'; exact absurd h'.symm hx
      rw [if_neg hp] at h
      cases hc : cut [c] xs with
      | none => simp [hc] at h
      | some p =>
        obtain ⟨a', b'⟩ := p
        simp [hc] at h
        obtain ⟨rfl, rfl⟩ := h
        obtain ⟨h1, h2⟩ := ih a' b' hc
        refine ⟨by rw [h1]; simp, ?_⟩
        simp [h2]
        exact fun h' => hx h'.symm

theorem cut_single_none (c : Char) : ∀ (s : Str), cut [c] s = none → c ∉ s := by
  intro s
  induction s with
  | nil => intro _; simp
  | cons x xs ih =>
    intro h
    unfold cut at h
    by_cases hx : x = c
    · subst hx
      simp at h
    · have hp : ¬ ([c] <+: x :: xs) := by
        simp [List.cons_prefix_cons]
        intro h'; exact absurd h'.symm hx
      rw [if_neg hp] at h
      cases hc : cut [c] xs with
      | none =>
        have := ih hc
        simp [this]
        exact fun h' => hx h'.symm
      | some p => obtain ⟨a', b'⟩ := p; simp [hc] at h

/-- Two ways of writing a text as `x ++ c :: r` with no `c` in `x` agree. -/
theorem append_cons_inj_of_not_mem (c : Char) : ∀ (x x' r r' : Str), c ∉ x → c ∉ x' →
    x ++ c :: r = x' ++ c :: r' → x = x' ∧ r = r' := by
  intro x
  induction x with
  | nil =>
    intro x' r r' _ hx' h
    cases x' with
    | nil => simpa using h
    | cons y ys =>
      simp only [List.nil_append, List.cons_append, List.cons.injEq] at h
      exact absurd (h.1 ▸ List.mem_cons_self _ _) hx'
  | cons y ys ih =>
    intro x' r r' hx hx' h
    cases x' with
    | nil =>
      simp only [List.nil_append, List.cons_append, List.cons.injEq] at h
      exact absurd (h.1 ▸ List.mem_cons_self _ _) hx
    | cons z zs =>
      simp only [List.cons_append, List.cons.injEq] at h
      obtain ⟨h1, h2⟩ := ih zs r r' (fun hm => hx (List.mem_cons_of_mem _ hm))
        (fun hm => hx' (List.mem_cons_of_mem _ hm)) h.2
      exact ⟨by rw [h.1, h1], h2⟩

/-- Two ways of writing a text as `x ++ c :: r` with no `c` in `r` agree. -/
theorem append_cons_inj_of_not_mem_right (c : Char) (x x' r r' : Str) (hr : c ∉ r)
    (hr' : c ∉ r') (h : x ++ c :: r = x' ++ c :: r') : x = x' ∧ r = r' := by
  have h' := congrArg List.reverse h
  simp only [List.reverse_append, List.reverse_cons, List.append_assoc,
    List.singleton_append] at h'
  obtain ⟨h1, h2⟩ := append_cons_inj_of_not_mem c r.reverse r'.reverse x.reverse x'.reverse
    (by simpa using hr) (by simpa using hr') h'
  exact ⟨List.reverse_injective h2, List.reverse_injective h1⟩

/-- A successful cut takes the text apart around an occurrence of `sep`. -/
theorem cut_some_eq (sep : Str) : ∀ (s a b : Str), cut sep s = some (a, b) →
    s = a ++ sep ++ b := by
  intro s
  induction s with
  | nil =>
    intro a b h
    unfold cut at h
    by_cases hs : sep = []
    · rw [if_pos hs] at h
      injection h with h
      injection h with h1 h2
      subst h1; subst h2; simp [hs]
    · rw [if_neg hs] at h; cases h
  | cons x xs ih =>
    intro a b h
    unfold cut at h
    by_cases hp : sep <+: x :: xs
    · rw [if_pos hp] at h
      injection h with h
      injection h with h1 h2
      subst h1; subst h2
      simpa using (List.prefix_iff_eq_append.1 hp).symm
    · rw [if_neg hp] at h
      cases hc : cut sep xs with
      | none => simp [hc] at h
      | some p =>
        obtain ⟨a', b'⟩ := p
        simp only [hc, Option.some.injEq, Prod.mk.injEq] at h
        obtain ⟨rfl, rfl⟩ := h
        have := ih a' b' hc
        rw [this]
        simp

/-- A successful cut is at the first occurrence of `sep`. -/
theorem cut_some_first (sep : Str) : ∀ (s a b : Str), cut sep s = some (a, b) →
    ∀ a' b' : Str, s = a' ++ sep ++ b' → a.length ≤ a'.length := by
  intro s
  induction s with
  | nil =>
    intro a b h a' b' _
    unfold cut at h
    by_cases hs : sep = []
    · rw [if_pos hs] at h
      injection h with h
      injection h with h1 h2
      subst h1; simp
    · rw [if_neg hs] at h; cases h
  | cons x xs ih =>
    intro a b h a' b' hs
    unfold cut at h
    by_cases hp : sep <+: x :: xs
    · rw [if_pos hp] at h
      injection h with h
      injection h with h1 h2
      subst h1; simp
    · rw [if_neg hp] at h
      cases hc : cut sep xs with
      | none => simp [hc] at h
      | some p =>
        obtain ⟨a0, b0⟩ := p
        simp only [hc, Option.some.injEq, Prod.mk.injEq] at h
        obtain ⟨rfl, rfl⟩ := h
        cases a' with
        | nil =>
          exfalso; apply hp
          rw [hs]; simp
        | cons y ys =>
          simp only [List.cons_append, List.cons.injEq] at hs
          have := ih a0 b0 hc ys b' (by rw [hs.2])
          simp only [List.length_cons]
          omega

/-- A cut fails exactly when `sep` does not occur. -/
theorem cut_eq_none_iff (sep : Str) : ∀ s : Str, cut sep s = none ↔ ¬ sep <:+: s := by
  intro s
  constructor
  · induction s with
    | nil =>
      intro h
      unfold cut at h
      by_cases hs : sep = []
      · rw [if_pos hs] at h; cases h
      · simpa using hs
    | cons x xs ih =>
      intro h
      unfold cut at h
      by_cases hp : sep <+: x :: xs
      · rw [if_pos hp] at h; cases h
      · rw [if_neg hp] at h
        cases hc : cut sep xs with
        | none =>
          rw [List.infix_cons_iff]
          rintro (h1 | h1)
          · exact hp h1
          · exact ih hc h1
        | some p => obtain ⟨a', b'⟩ := p; simp [hc] at h
  · intro h
    cases hc : cut sep s with
    | none => rfl
    | some p =>
      obtain ⟨a, b⟩ := p
      exfalso; apply h
      exact ⟨a, b, (cut_some_eq sep s a b hc).symm⟩

theorem Contains_iff_cut (s sep : Str) : Contains s sep = true ↔ (cut sep s).isSome := by
  unfold Contains
  rw [decide_eq_true_iff]
  cases hc : cut sep s with
  | none => simpa using (cut_eq_none_iff sep s).1 hc
  | some p =>
    simp only [Option.isSome_some, iff_true]
    by_contra h
    rw [(cut_eq_none_iff sep s).2 h] at hc
    cases hc

/-- The pieces of a split in two: both sides of the first occurrence of `sep`,
or the whole text when `sep` does not occur. -/
theorem SplitN_two (s sep : Str) :
    SplitN s sep 2 = match cut sep s with
      | none => [s]
      | some (a, b) => [a, b] := by
  unfold SplitN
  cases cut sep s with
  | none => rfl
  | some p => obtain ⟨a, b⟩ := p; simp [SplitN]

theorem replaceN_single_nil (c : Char) : ∀ (n : Nat) (s : Str), s.length ≤ n →
    replaceN [c] [] n s = s.filter (fun x => decide (x ≠ c)) := by
  intro n
  induction n with
  | zero =>
    intro s hs
    have : s = [] := List.eq_nil_of_length_eq_zero (Nat.le_zero.1 hs)
    subst this
    rfl
  | succ n ih =>
    intro s hs
    unfold replaceN
    cases hc : cut [c] s with
    | none =>
      have hmem := cut_single_none c s hc
      simp only []
      symm
      rw [List.filter_eq_self]
      intro x hx
      simp only [ne_eq, decide_not, Bool.not_eq_true', decide_eq_false_iff_not]
      rintro rfl
      exact hmem hx
    | some p =>
      obtain ⟨a, b⟩ := p
      obtain ⟨h1, h2⟩ := cut_single_some c s a b hc
      simp only []
      have hb : b.length ≤ n := by
        rw [h1, List.length_append, List.length_cons] at hs
        omega
      rw [ih b hb, h1, List.filter_append, List.filter_cons]
      have ha : a.filter (fun x => decide (x ≠ c)) = a := by
        rw [List.filter_eq_self]
        intro x hx
        simp only [ne_eq, decide_not, Bool.not_eq_true', decide_eq_false_iff_not]
        rintro rfl
        exact h2 hx
      rw [ha]
      simp

/-- Replacing the one-character text `c` by nothing removes every `c`. -/
theorem ReplaceAll_single_nil (c : Char) (s : Str) :
    ReplaceAll s [c] [] = s.filter (fun x => decide (x ≠ c)) :=
  replaceN_single_nil c s.length s (Nat.le_refl _)

/-- The first piece of a split in two at `c` is the text before the first `c`,
and the whole text when there is no `c`. -/
theorem head_SplitN_single (c : Char) (s : Str) :
    (SplitN s [c] 2).headD [] = s.takeWhile (fun x => decide (x ≠ c)) := by
  unfold SplitN
  cases hc : cut [c] s with
  | none =>
    have h := cut_single_none c s hc
    simp only [List.headD_cons]
    symm
    rw [List.takeWhile_eq_self_iff]
    intro x hx
    simp only [ne_eq, decide_not, Bool.not_eq_true', decide_eq_false_iff_not]
    rintro rfl
    exact h hx
  | some p =>
    obtain ⟨a, b⟩ := p
    obtain ⟨h1, h2⟩ := cut_single_some c s a b hc
    simp only [List.headD_cons]
    subst h1
    rw [List.takeWhile_append_of_pos]
    · simp
    · intro x hx
      simp only [ne_eq, decide_not, Bool.not_eq_true', decide_eq_false_iff_not]
      rintro rfl
      exact h2 hx

/-- Splitting at a character with enough pieces allowed: no piece contains the
character, and the pieces, each followed by the character, make up the text
followed by the character. -/
theorem SplitN_single_spec (c : Char) : ∀ (n : Nat) (s : Str), s.length < n →
    (∀ l ∈ SplitN s [c] n, c ∉ l) ∧
    ((SplitN s [c] n).map (fun l => l ++ [c])).flatten = s ++ [c]
  | 0, _, h => absurd h (Nat.not_lt_zero _)
  | 1, s, h => by
    have hs : s = [] := List.eq_nil_of_length_eq_zero (by omega)
    subst hs
    simp [SplitN]
  | n + 2, s, h => by
    unfold SplitN
    cases hc : cut [c] s with
    | none =>
      have hmem := cut_single_none c s hc
      simp only [List.mem_singleton, forall_eq, List.map_cons, List.map_nil,
        List.flatten_cons, List.flatten_nil, List.append_nil, and_true]
      exact hmem
    | some p =>
      obtain ⟨a, b⟩ := p
      obtain ⟨h1, h2⟩ := cut_single_some c s a b hc
      have hb : b.length < n + 1 := by
        rw [h1, List.length_append, List.length_cons] at h
        omega
      obtain ⟨i1, i2⟩ := SplitN_single_spec c (n + 1) b hb
      simp only [List.mem_cons, forall_eq_or_imp, List.map_cons, List.flatten_cons]
      refine ⟨⟨h2, i1⟩, ?_⟩
      rw [i2, h1]
      simp

/-- The lines of a text: no line contains a newline, and the lines, each
followed by a newline, make up the text followed by a newline. -/
theorem Split_newline_spec (s : Str) :
    (∀ l ∈ Split s "\n".toList, '\n' ∉ l) ∧
    ((Split s "\n".toList).map (fun l => l ++ "\n".toList)).flatten = s ++ "\n".toList :=
  SplitN_single_spec '\n' (s.length + 1) s (Nat.lt_succ_self _)

/-- The fields of a text, put end to end, are the text without its
whitespace: `Fields` loses and reorders nothing else. -/
theorem flatten_fieldsAux : ∀ (s cur : Str),
    (fieldsAux s cur).flatten = cur.reverse ++ s.filter (fun c => !isSpace c) := by
  intro s
  induction s with
  | nil =>
    intro cur
    unfold fieldsAux
    split_ifs with h
    · subst h; rfl
    · simp
  | cons c cs ih =>
    intro cur
    unfold fieldsAux
    by_cases hc : isSpace c = true
    · rw [if_pos hc]
      split_ifs with h
      · subst h
        rw [ih]
        simp [hc]
      · rw [List.flatten_cons, ih]
        simp [hc]
    · rw [if_neg hc, ih]
      simp [hc]

theorem flatten_Fields (s : Str) :
    (Fields s).flatten = s.filter (fun c => !isSpace c) := by
  unfold Fields
  rw [flatten_fieldsAux]
  rfl

/-! ## Facts about the map of `ValidateSchema` -/

theorem mapGet_markFound (k k' : Str) : ∀ m : List (Str × Bool),
    mapGet (markFound m k) k' =
      (mapGet m k').map (fun v => v || decide (k = k')) := by
  intro m
  induction m with
  | nil => simp [mapGet, markFound]
  | cons e m ih =>
    obtain ⟨ek, ev⟩ := e
    simp only [mapGet, markFound] at ih ⊢
    by_cases h1 : ek = k
    · by_cases h2 : k' = ek
      · subst h1; subst h2
        simp [List.lookup_cons]
      · have h3 : ¬ (k' = k) := by rw [← h1]; exact h2
        have h4 : (k' == ek) = false := by simpa using h2
        simp only [List.map_cons, h1, if_true, List.lookup_cons]
        rw [← h1, h4]
        simp only []
        rw [h1]
        exact ih
    · by_cases h2 : k' = ek
      · subst h2
        have h3 : ¬ (k = k') := fun h => h1 h.symm
        simp [List.lookup_cons, h1, h3]
      · have h4 : (k' == ek) = false := by simpa using h2
        simp only [List.map_cons, h1, if_false, List.lookup_cons, h4]
        exact ih

theorem mapGet_scanLine (m : List (Str × Bool)) (line k : Str) :
    mapGet (scanLine m line) k =
      (mapGet m k).map (fun v => v || decide ((SplitN line [':'] 2).headD [] = k)) := by
  unfold scanLine
  simp only [String.toList]
  cases h : mapGet m ((SplitN line [':'] 2).headD []) with
  | some v => simp only []; exact mapGet_markFound _ _ _
  | none =>
    simp only []
    cases h2 : mapGet m k with
    | none => rfl
    | some w =>
      have : (SplitN line [':'] 2).headD [] ≠ k := by
        intro e; rw [e] at h; rw [h] at h2; cases h2
      rw [decide_eq_false this]
      simp

theorem mapGet_foldl_scanLine (k : Str) : ∀ (lines : List Str) (m : List (Str × Bool)),
    mapGet (lines.foldl scanLine m) k =
      (mapGet m k).map
        (fun v => v || lines.any (fun line => decide ((SplitN line [':'] 2).headD [] = k))) := by
  intro lines
  induction lines with
  | nil => intro m; simp
  | cons l ls ih =>
    intro m
    rw [List.foldl_cons, ih, mapGet_scanLine]
    cases mapGet m k with
    | none => rfl
    | some v => simp [Bool.or_assoc]

theorem mapGet_expectedFields (k : Str) (hk : k ∈ expectedKeys) :
    mapGet expectedFields k = some false := by
  unfold mapGet expectedFields
  generalize expectedKeys = ks at hk
  induction ks with
  | nil => cases hk
  | cons x xs ih =>
    simp only [List.map_cons, List.lookup_cons]
    by_cases h : k = x
    · subst h; simp
    · have h4 : (k == x) = false := by simpa using h
      rw [h4]
      simp only []
      apply ih
      cases hk with
      | head => exact absurd rfl h
      | tail _ h' => exact h'

theorem mapGet_found (blob k : Str) (hk : k ∈ expectedKeys) :
    mapGet ((Split blob "\n".toList).foldl scanLine expectedFields) k =
      some (fieldSeen blob k) := by
  rw [mapGet_foldl_scanLine, mapGet_expectedFields k hk]
  simp [fieldSeen]

theorem fieldSeen_iff (blob field : Str) :
    fieldSeen blob field = true ↔
      ∃ line ∈ Split blob "\n".toList,
        line.takeWhile (fun x => decide (x ≠ ':')) = field := by
  unfold fieldSeen
  simp only [List.any_eq_true, decide_eq_true_eq, String.toList]
  constructor
  · rintro ⟨l, hl, h⟩; exact ⟨l, hl, by rw [← head_SplitN_single]; exact h⟩
  · rintro ⟨l, hl, h⟩; exact ⟨l, hl, by rw [head_SplitN_single]; exact h⟩

/-- The second loop returns the error of the first key, in visiting order, that
no line has as its field name. -/
theorem reportMissing_found (blob : Str) : ∀ order : List Str,
    (∀ k ∈ order, k ∈ expectedKeys) →
    reportMissing ((Split blob "\n".toList).foldl scanLine expectedFields) order =
      match firstMissing blob order with
      | none => .ok ()
      | some f => .error (missingFieldError f) := by
  intro order
  induction order with
  | nil => intro _; rfl
  | cons k ks ih =>
    intro hsub
    have hk : k ∈ expectedKeys := hsub k (List.mem_cons_self _ _)
    have hks : ∀ x ∈ ks, x ∈ expectedKeys := fun x hx => hsub x (List.mem_cons_of_mem _ hx)
    unfold reportMissing firstMissing
    rw [mapGet_found blob k hk, List.find?_cons]
    cases hseen : fieldSeen blob k with
    | true => simpa [firstMissing] using ih hks
    | false => simp

theorem ValidateSchema_eq (DocumentBuildInfo : DocumentType) (order : List Str)
    (d : Document) (horder : order.Perm expectedKeys) (htype : d.Typ = DocumentBuildInfo) :
    ValidateSchema DocumentBuildInfo order d =
      match firstMissing d.Blob order with
      | none => .ok ()
      | some f => .error (missingFieldError f) := by
  unfold ValidateSchema
  rw [if_neg (by simpa using htype)]
  exact reportMissing_found d.Blob order (fun k hk => horder.subset hk)

theorem firstMissing_none_iff (blob : Str) (order : List Str)
    (horder : order.Perm expectedKeys) :
    firstMissing blob order = none ↔ ∀ f ∈ expectedKeys, fieldSeen blob f = true := by
  unfold firstMissing
  rw [List.find?_eq_none]
  constructor
  · intro h f hf
    have := h f (horder.symm.subset hf)
    simpa using this
  · intro h f hf
    simp [h f (horder.subset hf)]

/-- **C1.** `ValidateSchema` succeeds exactly when the document carries the
buildinfo type tag and each of the ten required names is, for at least one
line of the blob split on the newline, the text of that line before its first
colon (the whole line when it has none); a wrongly tagged document is rejected
whatever its text.  This holds for every order in which the final `range`
visits the map. -/
theorem ValidateSchema_ok_iff (DocumentBuildInfo : DocumentType) (order : List Str)
    (d : Document) (horder : order.Perm expectedKeys) :
    (ValidateSchema DocumentBuildInfo order d = .ok () ↔
      d.Typ = DocumentBuildInfo ∧
      ∀ f ∈ ["Source".toList, "Binary".toList, "Version".toList,
              "Installed-Build-Depends".toList, "Checksums-Md5".toList,
              "Checksums-Sha1".toList, "Build-Origin".toList,
              "Build-Architecture".toList, "Build-Date".toList, "Build-Path".toList],
        ∃ line ∈ Split d.Blob "\n".toList,
          line.takeWhile (fun x => decide (x ≠ ':')) = f) ∧
    (d.Typ ≠ DocumentBuildInfo →
      ValidateSchema DocumentBuildInfo order d =
        .error (documentTypeError DocumentBuildInfo d.Typ)) := by
  refine ⟨?_, fun h => by unfold ValidateSchema; rw [if_pos h]⟩
  by_cases htype : d.Typ = DocumentBuildInfo
  · rw [ValidateSchema_eq DocumentBuildInfo order d horder htype]
    have hnone := firstMissing_none_iff d.Blob order horder
    simp only [fieldSeen_iff] at hnone
    change _ ↔ _ ∧ ∀ f ∈ expectedKeys, _
    rw [← hnone]
    cases firstMissing d.Blob order with
    | none => simp [htype]
    | some f => simp
  · constructor
    · intro h
      unfold ValidateSchema at h
      rw [if_pos htype] at h
      cases h
    · rintro ⟨h, _⟩; exact absurd h htype

/-- Witness of C1: visiting the map in reverse declaration order, the sample
document is accepted. -/
theorem ValidateSchema_ok_iff_witness :
    expectedKeys.reverse.Perm expectedKeys ∧
    ValidateSchema sampleTag expectedKeys.reverse ⟨sampleBlob, sampleTag⟩ = .ok () :=
  ⟨List.reverse_perm _,
   (ValidateSchema_ok_iff sampleTag expectedKeys.reverse ⟨sampleBlob, sampleTag⟩
      (List.reverse_perm _)).1.2 ⟨rfl, by decide⟩⟩

/-- **C2.** When the document is correctly tagged and exactly one required
field `f` is the field name of no line while the nine others each are,
`ValidateSchema` fails with the error that names `f`, whose message is
`field `, the name `f`, and ` is missing`, a newline, ` in buildinfo`; and two
runs (whatever order each visits the map in) return the same error. -/
theorem ValidateSchema_one_missing (DocumentBuildInfo : DocumentType)
    (order₁ order₂ : List Str) (d : Document)
    (h₁ : order₁.Perm expectedKeys) (h₂ : order₂.Perm expectedKeys)
    (htype : d.Typ = DocumentBuildInfo) (f : Str) (hf : f ∈ expectedKeys)
    (hmissing : ¬ ∃ line ∈ Split d.Blob "\n".toList,
      line.takeWhile (fun x => decide (x ≠ ':')) = f)
    (hothers : ∀ g ∈ expectedKeys, g ≠ f →
      ∃ line ∈ Split d.Blob "\n".toList,
        line.takeWhile (fun x => decide (x ≠ ':')) = g) :
    ValidateSchema DocumentBuildInfo order₁ d =
      .error ("field ".toList ++ f ++ " is missing\n in buildinfo".toList) ∧
    ValidateSchema DocumentBuildInfo order₂ d =
      ValidateSchema DocumentBuildInfo order₁ d := by
  have key : ∀ order : List Str, order.Perm expectedKeys →
      ValidateSchema DocumentBuildInfo order d = .error (missingFieldError f) := by
    intro order horder
    rw [ValidateSchema_eq DocumentBuildInfo order d horder htype]
    cases hfm : firstMissing d.Blob order with
    | none =>
      have := (firstMissing_none_iff d.Blob order horder).1 hfm f hf
      exact absurd ((fieldSeen_iff _ _).1 this) hmissing
    | some g =>
      unfold firstMissing at hfm
      have hg := List.find?_some hfm
      have hmem := horder.subset (List.mem_of_find?_eq_some hfm)
      have hgf : g = f := by
        by_contra hne
        have := (fieldSeen_iff _ _).2 (hothers g hmem hne)
        simp [this] at hg
      rw [hgf]
  exact ⟨key order₁ h₁, by rw [key order₁ h₁, key order₂ h₂]⟩

/-- Witness of C2: the sample document without its `Build-Path` line, the map
visited once in declaration order and once in reverse. -/
theorem ValidateSchema_one_missing_witness :
    ValidateSchema sampleTag expectedKeys ⟨sampleBlobNoPath, sampleTag⟩ =
      .error "field Build-Path is missing\n in buildinfo".toList ∧
    ValidateSchema sampleTag expectedKeys.reverse ⟨sampleBlobNoPath, sampleTag⟩ =
      ValidateSchema sampleTag expectedKeys ⟨sampleBlobNoPath, sampleTag⟩ :=
  ValidateSchema_one_missing sampleTag expectedKeys expectedKeys.reverse
    ⟨sampleBlobNoPath, sampleTag⟩ (List.Perm.refl _) (List.reverse_perm _) rfl
    "Build-Path".toList (by decide) (by decide) (by decide)

/-- Counterexample to C3 as stated: on the correctly tagged empty text, where
all ten required fields are missing, a run that visits the map in reverse
declaration order reports `Build-Path`, not `Source`, the first missing field
in declaration order. -/
theorem ValidateSchema_declaration_order_counterexample :
    ¬ ∀ (DocumentBuildInfo : DocumentType) (order : List Str) (d : Document) (f : Str),
        order.Perm expectedKeys → d.Typ = DocumentBuildInfo →
        (∃ g₁ ∈ expectedKeys, ∃ g₂ ∈ expectedKeys, g₁ ≠ g₂ ∧
          fieldSeen d.Blob g₁ = false ∧ fieldSeen d.Blob g₂ = false) →
        firstMissing d.Blob expectedKeys = some f →
        ValidateSchema DocumentBuildInfo order d =
          .error ("field ".toList ++ f ++ " is missing\n in buildinfo".toList) := by
  intro h
  have h1 := h sampleTag expectedKeys.reverse ⟨[], sampleTag⟩ "Source".toList
    (List.reverse_perm _) rfl
    ⟨"Source".toList, by decide, "Binary".toList, by decide, by decide, by decide, by decide⟩
    (by decide)
  have h2 : ValidateSchema sampleTag expectedKeys.reverse ⟨[], sampleTag⟩ =
      .error (missingFieldError "Build-Path".toList) := by decide
  rw [h2] at h1
  revert h1
  decide

/-- **C3, amended.** When the document is correctly tagged and some required
field is the field name of no line, `ValidateSchema` fails with the error
whose message is `field `, a name `f`, and ` is missing`, a newline,
` in buildinfo`, where `f` is the first required field, in the order in which
the final `range` visits the keys of the map, that is the field name of no
line: every key visited before `f` is the field name of some line.  The
reported field is not determined by the input alone: on the correctly tagged
empty text a run that visits the keys in declaration order reports `Source`
and a run that visits them in reverse order reports `Build-Path`. -/
theorem ValidateSchema_reports_first_visited (DocumentBuildInfo : DocumentType)
    (order : List Str) (d : Document) (horder : order.Perm expectedKeys)
    (htype : d.Typ = DocumentBuildInfo)
    (hmissing : ∃ g ∈ expectedKeys, ¬ ∃ line ∈ Split d.Blob "\n".toList,
      line.takeWhile (fun x => decide (x ≠ ':')) = g) :
    (∃ pre f post, order = pre ++ f :: post ∧
      (∀ g ∈ pre, ∃ line ∈ Split d.Blob "\n".toList,
        line.takeWhile (fun x => decide (x ≠ ':')) = g) ∧
      (¬ ∃ line ∈ Split d.Blob "\n".toList,
        line.takeWhile (fun x => decide (x ≠ ':')) = f) ∧
      f ∈ expectedKeys ∧
      ValidateSchema DocumentBuildInfo order d =
        .error ("field ".toList ++ f ++ " is missing\n in buildinfo".toList)) ∧
    (expectedKeys.Perm expectedKeys ∧ expectedKeys.reverse.Perm expectedKeys ∧
      ValidateSchema sampleTag expectedKeys ⟨[], sampleTag⟩ =
        .error "field Source is missing\n in buildinfo".toList ∧
      ValidateSchema sampleTag expectedKeys.reverse ⟨[], sampleTag⟩ =
        .error "field Build-Path is missing\n in buildinfo".toList) := by
  refine ⟨?_, List.Perm.refl _, List.reverse_perm _, by decide, by decide⟩
  rw [ValidateSchema_eq DocumentBuildInfo order d horder htype]
  cases hfm : firstMissing d.Blob order with
  | none =>
    obtain ⟨g, hg, hs⟩ := hmissing
    have := (firstMissing_none_iff d.Blob order horder).1 hfm g hg
    exact absurd ((fieldSeen_iff _ _).1 this) hs
  | some f =>
    unfold firstMissing at hfm
    obtain ⟨hf, pre, post, hsplit, hpre⟩ := List.find?_eq_some.1 hfm
    have hmem : f ∈ expectedKeys := horder.subset (List.mem_of_find?_eq_some hfm)
    refine ⟨pre, f, post, hsplit, ?_, ?_, hmem, rfl⟩
    · intro g hg
      have := hpre g hg
      simp only [Bool.not_not] at this
      exact (fieldSeen_iff _ _).1 this
    · intro hex
      have := (fieldSeen_iff _ _).2 hex
      simp [this] at hf

/-- Witness of C3, amended: the empty text, the map visited in reverse
declaration order; the field reported is `Build-Path`. -/
theorem ValidateSchema_reports_first_visited_witness :
    ∃ pre f post, expectedKeys.reverse = pre ++ f :: post ∧
      (∀ g ∈ pre, ∃ line ∈ Split ([] : Str) "\n".toList,
        line.takeWhile (fun x => decide (x ≠ ':')) = g) ∧
      (¬ ∃ line ∈ Split ([] : Str) "\n".toList,
        line.takeWhile (fun x => decide (x ≠ ':')) = f) ∧
      f ∈ expectedKeys ∧
      ValidateSchema sampleTag expectedKeys.reverse ⟨[], sampleTag⟩ =
        .error ("field ".toList ++ f ++ " is missing\n in buildinfo".toList) :=
  (ValidateSchema_reports_first_visited sampleTag expectedKeys.reverse ⟨[], sampleTag⟩
    (List.reverse_perm _) rfl ⟨"Source".toList, by decide, by decide⟩).1

/-! ## The identifier builder -/

/-- **C4.** `guacBuildInfoPkgPurl` returns
`"pkg:deb/" + distro + "/" + Sanitize(name) + "@" + version + "?arch=" + arch`
when version and arch are both non-empty, the same without the `?arch=` part
when only the version is non-empty, and the empty string whenever the version
is empty; for a sanitizer that leaves `attr` alone,
`(attr, 1:2.5.1-1, amd64, debian)` gives
`pkg:deb/debian/attr@1:2.5.1-1?arch=amd64`. -/
theorem guacBuildInfoPkgPurl_spec (SanitizeString : Str → Str) (n v a d : Str) :
    (v ≠ [] → a ≠ [] →
      guacBuildInfoPkgPurl SanitizeString n v a d =
        "pkg:deb/".toList ++ d ++ "/".toList ++ SanitizeString n ++ "@".toList ++ v ++
          "?arch=".toList ++ a) ∧
    (v ≠ [] → a = [] →
      guacBuildInfoPkgPurl SanitizeString n v a d =
        "pkg:deb/".toList ++ d ++ "/".toList ++ SanitizeString n ++ "@".toList ++ v) ∧
    (v = [] → guacBuildInfoPkgPurl SanitizeString n v a d = []) ∧
    (SanitizeString "attr".toList = "attr".toList →
      guacBuildInfoPkgPurl SanitizeString "attr".toList "1:2.5.1-1".toList
        "amd64".toList "debian".toList =
        "pkg:deb/debian/attr@1:2.5.1-1?arch=amd64".toList) := by
  refine ⟨?_, ?_, ?_, ?_⟩
  · intro hv ha
    unfold guacBuildInfoPkgPurl
    rw [if_pos ⟨hv, ha⟩]
  · intro hv ha
    unfold guacBuildInfoPkgPurl
    rw [if_neg (fun h => h.2 ha), if_pos hv]
  · intro hv
    unfold guacBuildInfoPkgPurl
    rw [if_neg (fun h => h.1 hv), if_neg (fun h => h hv)]
  · intro hS
    unfold guacBuildInfoPkgPurl
    rw [hS]
    decide

/-- Witness of C4: with the identity as sanitizer. -/
theorem guacBuildInfoPkgPurl_spec_witness :
    guacBuildInfoPkgPurl id "attr".toList "1:2.5.1-1".toList "amd64".toList
      "debian".toList = "pkg:deb/debian/attr@1:2.5.1-1?arch=amd64".toList ∧
    guacBuildInfoPkgPurl id "attr".toList "1:2.5.1-1".toList [] "debian".toList =
      "pkg:deb/debian/attr@1:2.5.1-1".toList ∧
    guacBuildInfoPkgPurl id "attr".toList [] "amd64".toList "debian".toList = [] :=
  ⟨(guacBuildInfoPkgPurl_spec id "attr".toList "1:2.5.1-1".toList "amd64".toList
      "debian".toList).2.2.2 rfl,
   (guacBuildInfoPkgPurl_spec id "attr".toList "1:2.5.1-1".toList []
      "debian".toList).2.1 (by decide) rfl,
   (guacBuildInfoPkgPurl_spec id "attr".toList [] "amd64".toList
      "debian".toList).2.2.1 rfl⟩

/-- The shape of an identifier built from a non-empty version. -/
theorem guacBuildInfoPkgPurl_shape (SanitizeString : Str → Str) (n v a d : Str)
    (hv : v ≠ []) :
    guacBuildInfoPkgPurl SanitizeString n v a d =
      "pkg:deb/".toList ++ ((d ++ '/' :: SanitizeString n) ++
        '@' :: (v ++ if a = [] then [] else '?' :: ("arch=".toList ++ a))) := by
  unfold guacBuildInfoPkgPurl
  by_cases ha : a = []
  · rw [if_neg (fun h => h.2 ha), if_pos hv, if_pos ha]
    simp [List.append_assoc]
  · rw [if_pos ⟨hv, ha⟩, if_neg ha]
    simp [List.append_assoc]

/-- For a sanitizer that is injective and whose output has
neither `/` nor `@`, distros without `@` and non-empty versions without `?`,
the identifier built by `guacBuildInfoPkgPurl` determines the name, the
version, the architecture and the distro it was built from: two such inputs
with the same identifier are equal, so these four parts can be recovered from
the identifier. -/
theorem guacBuildInfoPkgPurl_injective (SanitizeString : Str → Str)
    (n n' v v' a a' d d' : Str)
    (hS : Function.Injective SanitizeString)
    (hn : '/' ∉ SanitizeString n ∧ '@' ∉ SanitizeString n)
    (hn' : '/' ∉ SanitizeString n' ∧ '@' ∉ SanitizeString n')
    (hd : '@' ∉ d) (hd' : '@' ∉ d')
    (hv : v ≠ [] ∧ '?' ∉ v) (hv' : v' ≠ [] ∧ '?' ∉ v')
    (heq : guacBuildInfoPkgPurl SanitizeString n v a d =
      guacBuildInfoPkgPurl SanitizeString n' v' a' d') :
    n = n' ∧ v = v' ∧ a = a' ∧ d = d' := by
  rw [guacBuildInfoPkgPurl_shape _ _ _ _ _ hv.1,
    guacBuildInfoPkgPurl_shape _ _ _ _ _ hv'.1] at heq
  have heq := List.append_cancel_left heq
  have hat : ∀ (x y : Str), '@' ∉ x → '@' ∉ y → '@' ∉ x ++ '/' :: y := by
    intro x y hx hy hm
    rw [List.mem_append, List.mem_cons] at hm
    rcases hm with hm | hm | hm
    · exact hx hm
    · revert hm; decide
    · exact hy hm
  obtain ⟨hX, hR⟩ := append_cons_inj_of_not_mem '@' _ _ _ _ (hat d _ hd hn.2)
    (hat d' _ hd' hn'.2) heq
  obtain ⟨hdd, hnn⟩ := append_cons_inj_of_not_mem_right '/' _ _ _ _ hn.1 hn'.1 hX
  have hname : n = n' := hS hnn
  by_cases ha : a = []
  · by_cases ha' : a' = []
    · rw [if_pos ha, if_pos ha'] at hR
      exact ⟨hname, by simpa using hR, by rw [ha, ha'], hdd⟩
    · rw [if_pos ha, if_neg ha'] at hR
      exfalso; apply hv.2
      have : v = v' ++ '?' :: ("arch=".toList ++ a') := by simpa using hR
      rw [this]; simp
  · by_cases ha' : a' = []
    · rw [if_neg ha, if_pos ha'] at hR
      exfalso; apply hv'.2
      have : v' = v ++ '?' :: ("arch=".toList ++ a) := by simpa using hR.symm
      rw [this]; simp
    · rw [if_neg ha, if_neg ha'] at hR
      obtain ⟨h1, h2⟩ := append_cons_inj_of_not_mem '?' _ _ _ _ hv.2 hv'.2 hR
      exact ⟨hname, h1, List.append_cancel_left h2, hdd⟩

/-- Witness of `guacBuildInfoPkgPurl_injective`: the identity as sanitizer, at
`(attr, 1:2.5.1-1, amd64, debian)`. -/
theorem guacBuildInfoPkgPurl_injective_witness :
    "attr".toList = "attr".toList ∧ "1:2.5.1-1".toList = "1:2.5.1-1".toList ∧
      "amd64".toList = "amd64".toList ∧ "debian".toList = "debian".toList :=
  guacBuildInfoPkgPurl_injective id "attr".toList "attr".toList "1:2.5.1-1".toList
    "1:2.5.1-1".toList "amd64".toList "amd64".toList "debian".toList "debian".toList
    Function.injective_id (by decide) (by decide) (by decide) (by decide)
    (by decide) (by decide) rfl

/-! ## Facts about maps of slices -/

theorem lookup_map_update {α : Type} (k k' : Str) (v : List α) :
    ∀ m : List (Str × List α),
      (m.map (fun e => if e.1 = k then (k, v) else e)).lookup k' =
        if k' = k then (m.lookup k).map (fun _ => v) else m.lookup k' := by
  intro m
  induction m with
  | nil => simp
  | cons e m ih =>
    obtain ⟨ek, ev⟩ := e
    by_cases h1 : ek = k
    · subst h1
      by_cases h2 : k' = ek
      · subst h2; simp [List.lookup_cons]
      · have h4 : (k' == ek) = false := by simpa using h2
        simp only [List.map_cons, if_true, List.lookup_cons, h4]
        rw [ih, if_neg h2, if_neg h2]
    · by_cases h2 : k' = ek
      · subst h2
        have h3 : ¬ (k' = k) := h1
        simp [List.lookup_cons, h1]
      · have h4 : (k' == ek) = false := by simpa using h2
        have h5 : (k == ek) = false := by simpa using fun h => h1 h.symm
        simp only [List.map_cons, h1, if_false, List.lookup_cons, h4, h5]
        exact ih

theorem lookup_append_single {α : Type} (k k' : Str) (v : List α) :
    ∀ m : List (Str × List α),
      (m ++ [(k, v)]).lookup k' =
        match m.lookup k' with
        | some x => some x
        | none => if k' = k then some v else none := by
  intro m
  induction m with
  | nil =>
    by_cases h : k' = k
    · subst h; simp [List.lookup_cons]
    · have h4 : (k' == k) = false := by simpa using h
      simp [List.lookup_cons, h4, h]
  | cons e m ih =>
    obtain ⟨ek, ev⟩ := e
    by_cases h2 : k' = ek
    · subst h2; simp [List.lookup_cons]
    · have h4 : (k' == ek) = false := by simpa using h2
      simp only [List.cons_append, List.lookup_cons, h4]
      exact ih

/-- Reading a map of slices after a write. -/
theorem sliceMapGet_sliceMapSet {α : Type} (m : List (Str × List α)) (k k' : Str)
    (v : List α) :
    sliceMapGet (sliceMapSet m k v) k' = if k' = k then v else sliceMapGet m k' := by
  unfold sliceMapGet sliceMapSet
  cases hk : m.lookup k with
  | some x =>
    simp only [Option.isSome_some, if_true]
    rw [lookup_map_update, hk]
    by_cases h : k' = k
    · simp [h]
    · simp [h]
  | none =>
    simp only [Option.isSome_none, Bool.false_eq_true, if_false]
    rw [lookup_append_single]
    by_cases h : k' = k
    · subst h; rw [hk]; simp
    · cases hk' : m.lookup k' with
      | none => simp [h]
      | some y => simp [h]

/-! ## The loops of the parser -/

/-- A run of the loop of `getTopLevelPackage` that ends without error appends
the identifier of every binary, keeps one package per appended identifier in
the map, and leaves the rest of the parser alone. -/
theorem topLevelLoop_ok (h : Helpers) : ∀ (bins : List Str) (b b' : buildinfoParser),
    topLevelLoop h bins b = (b', none) →
    b'.identifierStrings = b.identifierStrings ++ bins.map (fun binary =>
      guacBuildInfoPkgPurl h.SanitizeString binary b.buildinfo.Version
        b.buildinfo.Architecture b.buildinfo.Distro) ∧
    ((∀ p, (sliceMapGet b.binaries p).length = b.identifierStrings.count p) →
      ∀ p, (sliceMapGet b'.binaries p).length = b'.identifierStrings.count p) ∧
    b'.buildinfo = b.buildinfo ∧ b'.dependencies = b.dependencies ∧
    b'.source = b.source := by
  intro bins
  induction bins with
  | nil =>
    intro b b' hrun
    simp only [topLevelLoop, Prod.mk.injEq, and_true] at hrun
    subst hrun
    simp
  | cons binary rest ih =>
    intro b b' hrun
    unfold topLevelLoop at hrun
    by_cases hb : binary ≠ []
    · rw [if_pos hb] at hrun
      simp only [] at hrun
      cases hp : h.PurlToPkg (guacBuildInfoPkgPurl h.SanitizeString binary
          b.buildinfo.Version b.buildinfo.Architecture b.buildinfo.Distro) with
      | error err => rw [hp] at hrun; simp at hrun
      | ok pkg =>
        rw [hp] at hrun
        simp only [] at hrun
        obtain ⟨h1, h2, h3, h4, h5⟩ := ih _ b' hrun
        refine ⟨?_, ?_, h3, h4, h5⟩
        · rw [h1]; simp
        · intro hinv
          apply h2
          intro p
          simp only [sliceMapGet_sliceMapSet, List.count_append, List.count_singleton]
          by_cases hpe : p = guacBuildInfoPkgPurl h.SanitizeString binary
              b.buildinfo.Version b.buildinfo.Architecture b.buildinfo.Distro
          · subst hpe
            simp [hinv]
          · have hpe' : ¬ (guacBuildInfoPkgPurl h.SanitizeString binary
              b.buildinfo.Version b.buildinfo.Architecture b.buildinfo.Distro = p) :=
              fun e => hpe e.symm
            simp [hpe, hpe', hinv]
    · rw [if_neg hb] at hrun
      simp at hrun

theorem DepShape_step (m : List (Str × List PkgInputSpec)) (n : Nat) (x : PkgInputSpec)
    (hm : DepShape m n) :
    DepShape (sliceMapSet m "InstalledBuildDepends".toList
      (sliceMapGet m "InstalledBuildDepends".toList ++ [x])) (n + 1) := by
  rcases hm with ⟨rfl, rfl⟩ | ⟨l, rfl, rfl⟩
  · right
    exact ⟨[x], by simp [sliceMapSet, sliceMapGet], rfl⟩
  · right
    exact ⟨l ++ [x], by simp [sliceMapSet, sliceMapGet, List.lookup_cons], by simp⟩

theorem depCount_of_DepShape (m : List (Str × List PkgInputSpec)) (n : Nat)
    (hm : DepShape m n) : depCount m = n := by
  rcases hm with ⟨rfl, rfl⟩ | ⟨l, rfl, rfl⟩
  · rfl
  · simp [depCount]

/-- A run of the loop of `getDependencies` that ends without error adds one
package per spec to the map and leaves the rest of the parser alone. -/
theorem dependenciesLoop_ok (h : Helpers) : ∀ (deps : List Str) (b b' : buildinfoParser),
    dependenciesLoop h deps b = (b', none) →
    (∀ n, DepShape b.dependencies n → DepShape b'.dependencies (n + deps.length)) ∧
    b'.identifierStrings = b.identifierStrings ∧ b'.binaries = b.binaries ∧
    b'.buildinfo = b.buildinfo ∧ b'.source = b.source := by
  intro deps
  induction deps with
  | nil =>
    intro b b' hrun
    simp only [dependenciesLoop, Prod.mk.injEq, and_true] at hrun
    subst hrun
    simp
  | cons dep rest ih =>
    intro b b' hrun
    unfold dependenciesLoop at hrun
    simp only [] at hrun
    by_cases hl : (SplitN dep "(=".toList 2).length ≠ 2
    · rw [if_pos hl] at hrun; simp at hrun
    · rw [if_neg hl] at hrun
      cases hp : h.PurlToPkg (guacBuildInfoPkgPurl h.SanitizeString
          ((SplitN dep "(=".toList 2).getD 0 [])
          (TrimRight ((SplitN dep "(=".toList 2).getD 1 []) "),".toList)
          b.buildinfo.Architecture b.buildinfo.Distro) with
      | error err => rw [hp] at hrun; simp at hrun
      | ok pkg =>
        rw [hp] at hrun
        simp only [] at hrun
        obtain ⟨h1, h2, h3, h4, h5⟩ := ih _ b' hrun
        refine ⟨?_, h2, h3, h4, h5⟩
        intro n hn
        have := h1 (n + 1) (DepShape_step _ n pkg hn)
        simpa [Nat.add_assoc, Nat.add_comm 1] using this

/-! ## The predicates -/

theorem length_CreateTopLevelIsDeps (toplevel : PkgInputSpec)
    (packages : List (Str × List PkgInputSpec)) (justification : Str) :
    (CreateTopLevelIsDeps toplevel packages justification).length = depCount packages := by
  unfold CreateTopLevelIsDeps depCount
  rw [List.length_map]

theorem sum_map_one {α : Type} : ∀ l : List α, (l.map (fun _ => 1)).sum = l.length := by
  intro l
  induction l with
  | nil => rfl
  | cons x xs ih => rw [List.map_cons, List.sum_cons, ih, List.length_cons]; omega

theorem count_eq_one_of_nodup : ∀ (l : List Str), l.Nodup → ∀ p ∈ l, l.count p = 1 := by
  intro l
  induction l with
  | nil => intro _ p hp; cases hp
  | cons x xs ih =>
    intro hnd p hp
    rw [List.nodup_cons] at hnd
    rw [List.count_cons]
    by_cases hpx : p = x
    · subst hpx
      rw [List.count_eq_zero_of_not_mem hnd.1]
      simp
    · have hmem : p ∈ xs := by
        cases hp with
        | head => exact absurd rfl hpx
        | tail _ hm => exact hm
      rw [ih hnd.2 p hmem]
      have : (x == p) = false := by simpa using fun e => hpx e.symm
      simp [this]

/-- The inner loop of `GetPredicates` adds one `HasSourceAt` predicate per
package, and as many `IsDependency` predicates as the map of dependencies
holds packages. -/
theorem length_foldl_predicatesOfBinary (h : Helpers) (b : buildinfoParser) :
    ∀ (l : List PkgInputSpec) (preds : IngestPredicates),
      (l.foldl (predicatesOfBinary h b) preds).HasSourceAt.length =
        preds.HasSourceAt.length + l.length ∧
      (l.foldl (predicatesOfBinary h b) preds).IsDependency.length =
        preds.IsDependency.length + l.length * depCount b.dependencies := by
  intro l
  induction l with
  | nil => intro preds; simp
  | cons x xs ih =>
    intro preds
    rw [List.foldl_cons]
    obtain ⟨h1, h2⟩ := ih (predicatesOfBinary h b preds x)
    rw [h1, h2]
    simp only [predicatesOfBinary, List.length_append, List.length_cons, List.length_nil,
      length_CreateTopLevelIsDeps]
    constructor
    · omega
    · rw [Nat.add_mul]; omega

theorem length_foldl_purls (h : Helpers) (b : buildinfoParser) :
    ∀ (ids : List Str) (preds : IngestPredicates),
      (ids.foldl (fun preds purl =>
          (sliceMapGet b.binaries purl).foldl (predicatesOfBinary h b) preds)
        preds).HasSourceAt.length =
        preds.HasSourceAt.length +
          (ids.map (fun p => (sliceMapGet b.binaries p).length)).sum ∧
      (ids.foldl (fun preds purl =>
          (sliceMapGet b.binaries purl).foldl (predicatesOfBinary h b) preds)
        preds).IsDependency.length =
        preds.IsDependency.length +
          (ids.map (fun p => (sliceMapGet b.binaries p).length)).sum *
            depCount b.dependencies := by
  intro ids
  induction ids with
  | nil => intro preds; simp
  | cons x xs ih =>
    intro preds
    rw [List.foldl_cons]
    obtain ⟨h1, h2⟩ := ih ((sliceMapGet b.binaries x).foldl (predicatesOfBinary h b) preds)
    obtain ⟨h3, h4⟩ := length_foldl_predicatesOfBinary h b (sliceMapGet b.binaries x) preds
    rw [h1, h2, h3, h4]
    simp only [List.map_cons, List.sum_cons]
    constructor
    · omega
    · rw [Nat.add_mul]; omega

/-- What `GetPredicates` yields after `getTopLevelPackage` and
`getDependencies` have succeeded on a fresh parser holding the record `r`:
for every entry of `r.Binary`, as many `HasSourceAt` predicates as there are
entries with the same identifier, and for each of these one `IsDependency`
predicate per build dependency.  When the identifiers of the binaries are
pairwise distinct this is one `HasSourceAt` predicate per binary and
`b × k` `IsDependency` predicates. -/
theorem GetPredicates_counts (h : Helpers) (r : BuildInfo) (b₁ b₂ : buildinfoParser)
    (htop : getTopLevelPackage h (freshWith r) = (b₁, none))
    (hdep : getDependencies h b₁ = (b₂, none)) :
    (GetPredicates h b₂).HasSourceAt.length =
        ((binaryPurls h r).map (fun p => (binaryPurls h r).count p)).sum ∧
    (GetPredicates h b₂).IsDependency.length =
        ((binaryPurls h r).map (fun p => (binaryPurls h r).count p)).sum *
          r.InstalledBuildDepends.length ∧
    ((binaryPurls h r).Nodup →
      (GetPredicates h b₂).HasSourceAt.length = r.Binary.length ∧
      (GetPredicates h b₂).IsDependency.length =
        r.Binary.length * r.InstalledBuildDepends.length) := by
  unfold getTopLevelPackage at htop
  obtain ⟨t1, t2, t3, t4, -⟩ := topLevelLoop_ok h _ _ _ htop
  have hbi : b₁.buildinfo = r := by
    rw [t3]; simp only [freshWith]; split <;> rfl
  have hids : b₁.identifierStrings = binaryPurls h r := by
    rw [t1]
    have e1 : (if (freshWith r).buildinfo.Source ≠ [] then
        { freshWith r with
          source :=
            { Typ := "deb".toList
              Namespace := (freshWith r).buildinfo.Distro ++ "-src".toList
              Name := (freshWith r).buildinfo.Source } }
        else freshWith r).identifierStrings = [] := by split <;> rfl
    have e2 : (if (freshWith r).buildinfo.Source ≠ [] then
        { freshWith r with
          source :=
            { Typ := "deb".toList
              Namespace := (freshWith r).buildinfo.Distro ++ "-src".toList
              Name := (freshWith r).buildinfo.Source } }
        else freshWith r).buildinfo = r := by split <;> rfl
    rw [e1, e2]
    rfl
  have hinv : ∀ p, (sliceMapGet b₁.binaries p).length = b₁.identifierStrings.count p := by
    apply t2
    intro p
    have e1 : (if (freshWith r).buildinfo.Source ≠ [] then
        { freshWith r with
          source :=
            { Typ := "deb".toList
              Namespace := (freshWith r).buildinfo.Distro ++ "-src".toList
              Name := (freshWith r).buildinfo.Source } }
        else freshWith r).identifierStrings = [] := by split <;> rfl
    have e3 : (if (freshWith r).buildinfo.Source ≠ [] then
        { freshWith r with
          source :=
            { Typ := "deb".toList
              Namespace := (freshWith r).buildinfo.Distro ++ "-src".toList
              Name := (freshWith r).buildinfo.Source } }
        else freshWith r).binaries = [] := by split <;> rfl
    rw [e1, e3]
    rfl
  have hdeps0 : DepShape b₁.dependencies 0 := by
    left
    refine ⟨?_, rfl⟩
    rw [t4]
    split <;> rfl
  unfold getDependencies at hdep
  obtain ⟨d1, d2, d3, d4, -⟩ := dependenciesLoop_ok h _ _ _ hdep
  have hcount : depCount b₂.dependencies = r.InstalledBuildDepends.length := by
    have := depCount_of_DepShape _ _ (d1 0 hdeps0)
    rw [this, hbi]; simp
  obtain ⟨g1, g2⟩ := length_foldl_purls h b₂ b₂.identifierStrings
    { HasSourceAt := [], IsDependency := [] }
  have hsum : (b₂.identifierStrings.map (fun p => (sliceMapGet b₂.binaries p).length)) =
      (binaryPurls h r).map (fun p => (binaryPurls h r).count p) := by
    rw [d2, d3, hids]
    apply List.map_congr_left
    intro p _
    rw [hinv p, hids]
  have e1 : (GetPredicates h b₂).HasSourceAt.length =
      ((binaryPurls h r).map (fun p => (binaryPurls h r).count p)).sum := by
    unfold GetPredicates
    rw [g1, hsum]; simp
  have e2 : (GetPredicates h b₂).IsDependency.length =
      ((binaryPurls h r).map (fun p => (binaryPurls h r).count p)).sum *
        r.InstalledBuildDepends.length := by
    unfold GetPredicates
    rw [g2, hsum, hcount]; simp
  refine ⟨e1, e2, ?_⟩
  intro hnd
  have hone : ((binaryPurls h r).map (fun p => (binaryPurls h r).count p)).sum =
      r.Binary.length := by
    have : (binaryPurls h r).map (fun p => (binaryPurls h r).count p) =
        (binaryPurls h r).map (fun _ => 1) := by
      apply List.map_congr_left
      intro p hp
      exact count_eq_one_of_nodup _ hnd p hp
    rw [this, sum_map_one]
    simp [binaryPurls]
  rw [e1, e2, hone]
  exact ⟨rfl, rfl⟩

/-- Witness of `GetPredicates_counts`: the record of the spec's scenario, with
binaries `attr` and `attr-udeb` and two dependencies, gives 2 `HasSourceAt`
and 4 `IsDependency` predicates. -/
theorem GetPredicates_counts_witness :
    (GetPredicates sampleHelpers
      (getDependencies sampleHelpers
        (getTopLevelPackage sampleHelpers (freshWith sampleRecord)).1).1).HasSourceAt.length
      = 2 ∧
    (GetPredicates sampleHelpers
      (getDependencies sampleHelpers
        (getTopLevelPackage sampleHelpers (freshWith sampleRecord)).1).1).IsDependency.length
      = 2 * 2 :=
  (GetPredicates_counts sampleHelpers sampleRecord
    (getTopLevelPackage sampleHelpers (freshWith sampleRecord)).1
    (getDependencies sampleHelpers
      (getTopLevelPackage sampleHelpers (freshWith sampleRecord)).1).1
    (by decide) (by decide)).2.2 (by decide)

/-- **C6.** The code at the input where the claim fails: for the record whose
binaries list is `[attr, attr]` (2 binaries) with 2 build dependencies,
whatever the helpers are, when `getTopLevelPackage` and `getDependencies`
succeed on a fresh parser `GetPredicates` yields 4 `HasSourceAt` predicates
and 8 `IsDependency` predicates, not 2 and 4. -/
theorem GetPredicates_repeated_binary (h : Helpers) (b₁ b₂ : buildinfoParser)
    (htop : getTopLevelPackage h (freshWith repeatedRecord) = (b₁, none))
    (hdep : getDependencies h b₁ = (b₂, none)) :
    repeatedRecord.Binary.length = 2 ∧ repeatedRecord.InstalledBuildDepends.length = 2 ∧
    (GetPredicates h b₂).HasSourceAt.length = 4 ∧
    (GetPredicates h b₂).IsDependency.length = 8 := by
  obtain ⟨h1, h2, -⟩ := GetPredicates_counts h repeatedRecord b₁ b₂ htop hdep
  have hsum : ((binaryPurls h repeatedRecord).map
      (fun p => (binaryPurls h repeatedRecord).count p)).sum = 4 := by
    simp [binaryPurls, repeatedRecord]
  rw [h1, h2, hsum]
  exact ⟨rfl, rfl, rfl, rfl⟩

/-- Witness of C6: the text `repeatedBlob` parses to the record with binaries
`[attr, attr]`, and with the sample helpers both steps of `Parse` succeed. -/
theorem GetPredicates_repeated_binary_witness :
    parsebuildInfoBlob sampleStd repeatedBlob = (repeatedRecord, none) ∧
    (GetPredicates sampleHelpers
      (getDependencies sampleHelpers
        (getTopLevelPackage sampleHelpers (freshWith repeatedRecord)).1).1).HasSourceAt.length
      = 4 ∧
    (GetPredicates sampleHelpers
      (getDependencies sampleHelpers
        (getTopLevelPackage sampleHelpers (freshWith repeatedRecord)).1).1).IsDependency.length
      = 8 :=
  ⟨by decide,
   (GetPredicates_repeated_binary sampleHelpers
      (getTopLevelPackage sampleHelpers (freshWith repeatedRecord)).1
      (getDependencies sampleHelpers
        (getTopLevelPackage sampleHelpers (freshWith repeatedRecord)).1).1
      (by decide) (by decide)).2.2⟩

/-! ## Dependencies -/

theorem length_SplitN_two (s sep : Str) :
    (SplitN s sep 2).length = 2 ↔ Contains s sep = true := by
  rw [SplitN_two, Contains_iff_cut]
  cases cut sep s with
  | none => simp
  | some p => obtain ⟨a, b⟩ := p; simp

/-- The loop of `getDependencies` on specs that all have the delimiter and
whose identifiers are all accepted, followed by one that lacks it. -/
theorem dependenciesLoop_malformed (h : Helpers) (dep : Str) (post : List Str)
    (hdep : Contains dep "(=".toList = false) :
    ∀ (pre : List Str) (b : buildinfoParser),
      (∀ d ∈ pre, Contains d "(=".toList = true) →
      (∀ d ∈ pre, (h.PurlToPkg (dependencyPurl h b.buildinfo d)).isOk = true) →
      (dependenciesLoop h (pre ++ dep :: post) b).2 = some (dependencyError dep) := by
  intro pre
  induction pre with
  | nil =>
    intro b _ _
    have hl : (SplitN dep "(=".toList 2).length ≠ 2 := by
      rw [Ne, length_SplitN_two, hdep]; simp
    simp only [List.nil_append, dependenciesLoop]
    rw [if_pos hl]
  | cons d ds ih =>
    intro b hpre hacc
    have hl : ¬ (SplitN d "(=".toList 2).length ≠ 2 := by
      rw [Ne, not_not, length_SplitN_two]
      exact hpre d (List.mem_cons_self _ _)
    have hok := hacc d (List.mem_cons_self _ _)
    unfold dependencyPurl at hok
    simp only [List.cons_append, dependenciesLoop]
    rw [if_neg hl]
    cases hpkg : h.PurlToPkg (guacBuildInfoPkgPurl h.SanitizeString
        ((SplitN d "(=".toList 2).getD 0 [])
        (TrimRight ((SplitN d "(=".toList 2).getD 1 []) "),".toList)
        b.buildinfo.Architecture b.buildinfo.Distro) with
    | error err => rw [hpkg] at hok; cases hok
    | ok pkg => ?_
    simp only []
    apply ih
    · exact fun x hx => hpre x (List.mem_cons_of_mem _ hx)
    · exact fun x hx => hacc x (List.mem_cons_of_mem _ hx)

/-- The loop of `getDependencies` on specs that all have the delimiter: it
ends without error, or with the error that the identifier parser returned
for the identifier of one of the specs. -/
theorem dependenciesLoop_wellformed (h : Helpers) :
    ∀ (deps : List Str) (b : buildinfoParser),
      (∀ d ∈ deps, Contains d "(=".toList = true) →
      (dependenciesLoop h deps b).2 = none ∨
      ∃ d ∈ deps, ∃ err, h.PurlToPkg (dependencyPurl h b.buildinfo d) = .error err ∧
        (dependenciesLoop h deps b).2 = some err := by
  intro deps
  induction deps with
  | nil => intro b _; left; rfl
  | cons d ds ih =>
    intro b hall
    have hl : ¬ (SplitN d "(=".toList 2).length ≠ 2 := by
      rw [Ne, not_not, length_SplitN_two]
      exact hall d (List.mem_cons_self _ _)
    simp only [dependenciesLoop]
    rw [if_neg hl]
    cases hp : h.PurlToPkg (guacBuildInfoPkgPurl h.SanitizeString
        ((SplitN d "(=".toList 2).getD 0 [])
        (TrimRight ((SplitN d "(=".toList 2).getD 1 []) "),".toList)
        b.buildinfo.Architecture b.buildinfo.Distro) with
    | error err =>
      right
      exact ⟨d, List.mem_cons_self _ _, err, hp, rfl⟩
    | ok pkg =>
      simp only []
      rcases ih _ (fun x hx => hall x (List.mem_cons_of_mem _ hx)) with h1 | ⟨x, hx, err, h2, h3⟩
      · left; exact h1
      · right
        exact ⟨x, List.mem_cons_of_mem _ hx, err, h2, h3⟩

/-- What `Parse` returns once `getTopLevelPackage` has succeeded: what
`getDependencies` returns. -/
theorem Parse_eq_getDependencies (std : StdLib) (h : Helpers) (b b₁ : buildinfoParser)
    (doc : Document)
    (htop : getTopLevelPackage h
      { b with doc := some doc, buildinfo := (parsebuildInfoBlob std doc.Blob).1 } =
        (b₁, none)) :
    Parse std h b doc = getDependencies h b₁ := by
  unfold Parse
  simp only [parsebuildInfoBlob] at htop ⊢
  rw [htop]
  simp only []
  rcases hg : getDependencies h b₁ with ⟨b₂, _ | err⟩ <;> rfl

/-- Counterexample to C7 as stated: with an identifier parser that rejects the
empty identifier, on the specs `a(=` and `gcc-10` the method `getDependencies`
does not fail with the malformed-dependency error for `gcc-10`, the first spec
without the delimiter: it returns the error of the identifier parser for the
first spec, whose version is empty. -/
theorem getDependencies_malformed_counterexample :
    ¬ ∀ (h : Helpers) (b : buildinfoParser) (pre : List Str) (dep : Str) (post : List Str),
        b.buildinfo.InstalledBuildDepends = pre ++ dep :: post →
        (∀ d ∈ pre, Contains d "(=".toList = true) →
        Contains dep "(=".toList = false →
        (getDependencies h b).2 = some ("failed to parse dependency ".toList ++ dep) := by
  intro hall
  have h1 := hall sampleHelpers (freshWith emptyVersionRecord) ["a(=".toList]
    "gcc-10".toList [] rfl (by decide) (by decide)
  revert h1
  decide

/-- The loop of `getDependencies` on specs that all have the delimiter and
whose identifiers are all accepted, followed by one that has the delimiter
and whose identifier is rejected. -/
theorem dependenciesLoop_rejected (h : Helpers) (dep : Str) (post : List Str) (err : Str)
    (hdep : Contains dep "(=".toList = true) :
    ∀ (pre : List Str) (b : buildinfoParser),
      (∀ d ∈ pre, Contains d "(=".toList = true) →
      (∀ d ∈ pre, (h.PurlToPkg (dependencyPurl h b.buildinfo d)).isOk = true) →
      h.PurlToPkg (dependencyPurl h b.buildinfo dep) = .error err →
      (dependenciesLoop h (pre ++ dep :: post) b).2 = some err := by
  intro pre
  induction pre with
  | nil =>
    intro b _ _ hrej
    have hl : ¬ (SplitN dep "(=".toList 2).length ≠ 2 := by
      rw [Ne, not_not, length_SplitN_two]
      exact hdep
    unfold dependencyPurl at hrej
    simp only [List.nil_append, dependenciesLoop]
    rw [if_neg hl, hrej]
  | cons d ds ih =>
    intro b hpre hacc hrej
    have hl : ¬ (SplitN d "(=".toList 2).length ≠ 2 := by
      rw [Ne, not_not, length_SplitN_two]
      exact hpre d (List.mem_cons_self _ _)
    have hok := hacc d (List.mem_cons_self _ _)
    unfold dependencyPurl at hok
    simp only [List.cons_append, dependenciesLoop]
    rw [if_neg hl]
    cases hpkg : h.PurlToPkg (guacBuildInfoPkgPurl h.SanitizeString
        ((SplitN d "(=".toList 2).getD 0 [])
        (TrimRight ((SplitN d "(=".toList 2).getD 1 []) "),".toList)
        b.buildinfo.Architecture b.buildinfo.Distro) with
    | error e => rw [hpkg] at hok; cases hok
    | ok pkg => ?_
    simp only []
    apply ih
    · exact fun x hx => hpre x (List.mem_cons_of_mem _ hx)
    · exact fun x hx => hacc x (List.mem_cons_of_mem _ hx)
    · exact hrej

/-- The loop of `getDependencies` on specs that all have the delimiter and
whose identifiers are all accepted ends without error. -/
theorem dependenciesLoop_accepted (h : Helpers) :
    ∀ (deps : List Str) (b : buildinfoParser),
      (∀ d ∈ deps, Contains d "(=".toList = true) →
      (∀ d ∈ deps, (h.PurlToPkg (dependencyPurl h b.buildinfo d)).isOk = true) →
      (dependenciesLoop h deps b).2 = none := by
  intro deps
  induction deps with
  | nil => intro b _ _; rfl
  | cons d ds ih =>
    intro b hall hacc
    have hl : ¬ (SplitN d "(=".toList 2).length ≠ 2 := by
      rw [Ne, not_not, length_SplitN_two]
      exact hall d (List.mem_cons_self _ _)
    have hok := hacc d (List.mem_cons_self _ _)
    unfold dependencyPurl at hok
    simp only [dependenciesLoop]
    rw [if_neg hl]
    cases hpkg : h.PurlToPkg (guacBuildInfoPkgPurl h.SanitizeString
        ((SplitN d "(=".toList 2).getD 0 [])
        (TrimRight ((SplitN d "(=".toList 2).getD 1 []) "),".toList)
        b.buildinfo.Architecture b.buildinfo.Distro) with
    | error e => rw [hpkg] at hok; cases hok
    | ok pkg => ?_
    simp only []
    apply ih
    · exact fun x hx => hall x (List.mem_cons_of_mem _ hx)
    · exact fun x hx => hacc x (List.mem_cons_of_mem _ hx)

/-- **C7, amended.** `getDependencies` handles the specs in list order and
stops at the first one that fails.  When every spec before it contains `(=`
and has an identifier that the identifier parser accepts: if that spec does
not contain `(=`, the error is the malformed-dependency error that names it,
with the message `failed to parse dependency ` followed by the spec; if it
contains `(=` and the identifier parser rejects its identifier, the error is
the one the identifier parser returned, whatever specs follow, a spec without
`(=` included.  When every spec contains `(=` and is accepted there is no
error, and when every spec contains `(=` the only possible error is one that
the identifier parser returned for one of the specs.  Once
`getTopLevelPackage` has succeeded `Parse` returns what `getDependencies`
returns, its error included. -/
theorem getDependencies_malformed (std : StdLib) (h : Helpers) (b : buildinfoParser) :
    (∀ (pre : List Str) (dep : Str) (post : List Str),
      b.buildinfo.InstalledBuildDepends = pre ++ dep :: post →
      (∀ d ∈ pre, Contains d "(=".toList = true) →
      Contains dep "(=".toList = false →
      (∀ d ∈ pre, (h.PurlToPkg (dependencyPurl h b.buildinfo d)).isOk = true) →
      (getDependencies h b).2 = some ("failed to parse dependency ".toList ++ dep)) ∧
    (∀ (pre : List Str) (dep : Str) (post : List Str) (err : Str),
      b.buildinfo.InstalledBuildDepends = pre ++ dep :: post →
      (∀ d ∈ pre, Contains d "(=".toList = true) →
      (∀ d ∈ pre, (h.PurlToPkg (dependencyPurl h b.buildinfo d)).isOk = true) →
      Contains dep "(=".toList = true →
      h.PurlToPkg (dependencyPurl h b.buildinfo dep) = .error err →
      (getDependencies h b).2 = some err) ∧
    ((∀ d ∈ b.buildinfo.InstalledBuildDepends, Contains d "(=".toList = true) →
      (∀ d ∈ b.buildinfo.InstalledBuildDepends,
        (h.PurlToPkg (dependencyPurl h b.buildinfo d)).isOk = true) →
      (getDependencies h b).2 = none) ∧
    ((∀ d ∈ b.buildinfo.InstalledBuildDepends, Contains d "(=".toList = true) →
      (getDependencies h b).2 = none ∨
      ∃ d ∈ b.buildinfo.InstalledBuildDepends, ∃ err,
        h.PurlToPkg (dependencyPurl h b.buildinfo d) = .error err ∧
        (getDependencies h b).2 = some err) ∧
    (∀ (b₀ : buildinfoParser) (doc : Document),
      getTopLevelPackage h
        { b₀ with doc := some doc, buildinfo := (parsebuildInfoBlob std doc.Blob).1 } =
          (b, none) →
      Parse std h b₀ doc = getDependencies h b) := by
  refine ⟨?_, ?_, ?_, ?_, ?_⟩
  · intro pre dep post hdeps hpre hdep hacc
    unfold getDependencies
    rw [hdeps]
    exact dependenciesLoop_malformed h dep post hdep pre b hpre hacc
  · intro pre dep post err hdeps hpre hacc hdep hrej
    unfold getDependencies
    rw [hdeps]
    exact dependenciesLoop_rejected h dep post err hdep pre b hpre hacc hrej
  · intro hall hacc
    exact dependenciesLoop_accepted h _ b hall hacc
  · intro hall
    exact dependenciesLoop_wellformed h _ b hall
  · intro b₀ doc htop
    exact Parse_eq_getDependencies std h b₀ b doc htop

/-- Witness of C7, amended: after the accepted spec `gcc(=10.2.1-6),` the spec
`gcc-10` is rejected by name; and after the spec `a(=`, whose identifier the
stand-in parser rejects, the error is that of the parser although the spec
`gcc-10` follows. -/
theorem getDependencies_malformed_witness :
    (getDependencies sampleHelpers (freshWith malformedRecord)).2 =
      some "failed to parse dependency gcc-10".toList ∧
    (getDependencies sampleHelpers (freshWith emptyVersionRecord)).2 =
      some "failed to parse purl: no scheme".toList :=
  ⟨(getDependencies_malformed sampleStd sampleHelpers (freshWith malformedRecord)).1
      ["gcc(=10.2.1-6),".toList] "gcc-10".toList [] rfl (by decide) (by decide) (by decide),
   (getDependencies_malformed sampleStd sampleHelpers (freshWith emptyVersionRecord)).2.1
      [] "a(=".toList ["gcc-10".toList] "failed to parse purl: no scheme".toList rfl
      (by decide) (by decide) (by decide) (by decide)⟩

/-! ## The blob parser -/

/-- One step of the loop of `parsebuildInfoBlob`, by cases on the cut of the
line at its first `": "`. -/
theorem parseLine_eq (std : StdLib) (bi : BuildInfo) (line : Str) :
    parseLine std bi line =
      match cut ": ".toList line with
      | none =>
        if Contains line "(=".toList = true then
          { bi with
            InstalledBuildDepends :=
              bi.InstalledBuildDepends ++ [ReplaceAll line " ".toList []] }
        else bi
      | some (field, value) =>
        if field = "Source".toList then { bi with Source := value }
        else if field = "Binary".toList then { bi with Binary := Fields value }
        else if field = "Version".toList then { bi with Version := value }
        else if field = "Build-Architecture".toList then { bi with Architecture := value }
        else if field = "Build-Origin".toList then
          { bi with Distro := ToLower std.unicodeToLower value }
        else if field = "Build-Date".toList then
          { bi with BuildDate := (std.parseRFC1123Z value).getD 0 }
        else bi := by
  unfold parseLine
  simp only [SplitN_two]
  cases cut ": ".toList line with
  | none =>
    simp only [List.length_singleton, List.getD_cons_zero]
    by_cases hc : Contains line "(=".toList = true
    · simp [hc]
    · simp [hc]
  | some p =>
    obtain ⟨a, b⟩ := p
    simp

/-- A fold whose steps either overwrite a component with a value picked from
the line or keep it ends with the value picked from the last line that has one. -/
theorem foldl_last {β : Type} (proj : BuildInfo → β) (pick : Str → Option β)
    (step : BuildInfo → Str → BuildInfo)
    (hstep : ∀ bi l, proj (step bi l) = (pick l).getD (proj bi)) :
    ∀ (lines : List Str) (bi : BuildInfo),
      proj (lines.foldl step bi) = ((lines.filterMap pick).getLast?).getD (proj bi) := by
  intro lines
  induction lines using List.reverseRecOn with
  | nil => intro bi; rfl
  | append_singleton ls l ih =>
    intro bi
    rw [List.foldl_append, List.foldl_cons, List.foldl_nil, hstep, ih,
      List.filterMap_append]
    cases hp : pick l with
    | none => simp [List.filterMap_cons, hp]
    | some v => simp [List.filterMap_cons, hp, List.getLast?_concat]

theorem parseLine_Binary (std : StdLib) (bi : BuildInfo) (line : Str) :
    (parseLine std bi line).Binary =
      ((fieldValue "Binary".toList line).map Fields).getD bi.Binary := by
  rw [parseLine_eq]
  unfold fieldValue
  cases cut ": ".toList line with
  | none => simp only []; split_ifs <;> rfl
  | some p =>
    obtain ⟨f, v⟩ := p
    simp only []
    by_cases hf : f = "Binary".toList
    · subst hf
      repeat rw [if_neg (by decide)]
      rw [if_pos rfl, if_pos rfl]
      rfl
    · rw [if_neg hf]
      split_ifs <;> rfl

theorem parseLine_InstalledBuildDepends (std : StdLib) (bi : BuildInfo) (line : Str) :
    (parseLine std bi line).InstalledBuildDepends =
      bi.InstalledBuildDepends ++
        (if (!Contains line ": ".toList && Contains line "(=".toList) = true then
          [ReplaceAll line " ".toList []] else []) := by
  rw [parseLine_eq]
  have hc := Contains_iff_cut line ": ".toList
  cases hcut : cut ": ".toList line with
  | none =>
    rw [hcut] at hc
    have hc' : Contains line ": ".toList = false := by simpa using hc
    simp only [hc', Bool.not_false, Bool.true_and]
    split_ifs <;> simp
  | some p =>
    obtain ⟨f, v⟩ := p
    rw [hcut] at hc
    have hc' : Contains line ": ".toList = true := by simpa using hc
    simp only [hc', Bool.not_true, Bool.false_and, Bool.false_eq_true, if_false,
      List.append_nil]
    split_ifs <;> rfl

theorem foldl_parseLine_InstalledBuildDepends (std : StdLib) :
    ∀ (lines : List Str) (bi : BuildInfo),
      (lines.foldl (parseLine std) bi).InstalledBuildDepends =
        bi.InstalledBuildDepends ++
          (lines.filter
            (fun l => !Contains l ": ".toList && Contains l "(=".toList)).map
            (fun l => ReplaceAll l " ".toList []) := by
  intro lines
  induction lines with
  | nil => intro bi; simp
  | cons l ls ih =>
    intro bi
    rw [List.foldl_cons, ih, parseLine_InstalledBuildDepends, List.filter_cons]
    split_ifs <;> simp

/-- Counterexample to C8 as stated: the one-line text `a`, tab, `(=1` gives
the dependency `a`, tab, `(=1`: the tab, a whitespace character, is kept. -/
theorem parsebuildInfoBlob_whitespace_counterexample :
    ¬ ∀ (std : StdLib) (text : Str),
        (parsebuildInfoBlob std text).1.InstalledBuildDepends =
          ((Split text "\n".toList).filter
            (fun l => !Contains l ": ".toList && Contains l "(=".toList)).map
            (fun l => l.filter (fun c => !isSpace c)) := by
  intro hall
  have h1 := hall sampleStd "a\t(=1".toList
  revert h1
  decide

/-- **C8, amended.** The `InstalledBuildDepends` list of
`parsebuildInfoBlob(text)` is, in document order, exactly the lines that
contain no `": "` delimiter and contain `(=`, each with every space character
(U+0020, and no other whitespace character) removed; no other line
contributes an entry. -/
theorem parsebuildInfoBlob_InstalledBuildDepends (std : StdLib) (text : Str) :
    (parsebuildInfoBlob std text).1.InstalledBuildDepends =
      ((Split text "\n".toList).filter
        (fun l => !Contains l ": ".toList && Contains l "(=".toList)).map
        (fun l => l.filter (fun c => decide (c ≠ ' '))) := by
  unfold parsebuildInfoBlob
  simp only []
  rw [foldl_parseLine_InstalledBuildDepends]
  simp only [BuildInfo.zero, List.nil_append]
  apply List.map_congr_left
  intro l _
  exact ReplaceAll_single_nil ' ' l

/-- The value that `fieldValue` gives for a line is the full remainder of the
line after its first `": "`, and the field name is what precedes it. -/
theorem fieldValue_eq_some_iff (name line value : Str) :
    fieldValue name line = some value ↔
      line = name ++ ": ".toList ++ value ∧
      ∀ a b : Str, line = a ++ ": ".toList ++ b → name.length ≤ a.length := by
  unfold fieldValue
  constructor
  · intro h
    cases hc : cut ": ".toList line with
    | none => rw [hc] at h; cases h
    | some p =>
      obtain ⟨f, v⟩ := p
      rw [hc] at h
      simp only [] at h
      by_cases hf : f = name
      · rw [if_pos hf] at h
        injection h with h
        subst hf; subst h
        exact ⟨cut_some_eq _ _ _ _ hc, cut_some_first _ _ _ _ hc⟩
      · rw [if_neg hf] at h; cases h
  · rintro ⟨h1, h2⟩
    cases hc : cut ": ".toList line with
    | none =>
      exfalso
      exact (cut_eq_none_iff _ _).1 hc ⟨name, value, h1.symm⟩
    | some p =>
      obtain ⟨f, v⟩ := p
      have e1 := cut_some_eq _ _ _ _ hc
      have l1 := cut_some_first _ _ _ _ hc name value h1
      have l2 := h2 f v e1
      have hlen : f.length = name.length := by omega
      rw [h1, List.append_assoc, List.append_assoc] at e1
      obtain ⟨e2, e3⟩ := List.append_inj e1 hlen.symm
      have e4 := List.append_cancel_left e3
      simp only []
      rw [if_pos e2.symm, e4]

/-- The lines of the field `Binary` are the lines that start with `Binary: `. -/
theorem fieldValue_Binary_iff (line value : Str) :
    fieldValue "Binary".toList line = some value ↔ line = "Binary: ".toList ++ value := by
  constructor
  · intro h
    have := ((fieldValue_eq_some_iff _ _ _).1 h).1
    rw [this]
    simp
  · rintro rfl
    simp [fieldValue, cut]

/-- **C10.** The `Binary` list of `parsebuildInfoBlob(text)` is the value of the
last line of the field `Binary` (the last line that starts with `Binary: `)
split on runs of whitespace by `strings.Fields`, in the order the names
appear, and it is empty when there is no such line.  The names, put end to
end, are the value without its whitespace. -/
theorem parsebuildInfoBlob_Binary (std : StdLib) (text : Str) :
    (parsebuildInfoBlob std text).1.Binary =
      ((lastValue "Binary".toList (Split text "\n".toList)).map Fields).getD [] ∧
    (∀ line value : Str,
      fieldValue "Binary".toList line = some value ↔ line = "Binary: ".toList ++ value) ∧
    (∀ value : Str, (Fields value).flatten = value.filter (fun c => !isSpace c)) := by
  unfold parsebuildInfoBlob lastValue
  simp only []
  refine ⟨?_, fieldValue_Binary_iff, flatten_Fields⟩
  rw [← List.getLast?_map, List.map_filterMap]
  exact foldl_last (fun bi => bi.Binary) _ _ (parseLine_Binary std) _ _

theorem parseLine_BuildDate (std : StdLib) (bi : BuildInfo) (line : Str) :
    (parseLine std bi line).BuildDate =
      ((fieldValue "Build-Date".toList line).map
        (fun v => (std.parseRFC1123Z v).getD 0)).getD bi.BuildDate := by
  rw [parseLine_eq]
  unfold fieldValue
  cases cut ": ".toList line with
  | none => simp only []; split_ifs <;> rfl
  | some p =>
    obtain ⟨f, v⟩ := p
    simp only []
    by_cases hf : f = "Build-Date".toList
    · subst hf
      repeat rw [if_neg (by decide)]
      rw [if_pos rfl, if_pos rfl]
      rfl
    · rw [if_neg hf]
      split_ifs <;> rfl

/-- A line of the field `Build-Date` changes the build date and nothing else. -/
theorem eraseDate_parseLine_date (std : StdLib) (bi : BuildInfo) (line : Str)
    (hd : (fieldValue "Build-Date".toList line).isSome = true) :
    eraseDate (parseLine std bi line) = eraseDate bi := by
  rw [parseLine_eq]
  unfold fieldValue at hd
  cases hc : cut ": ".toList line with
  | none => rw [hc] at hd; cases hd
  | some p =>
    obtain ⟨f, v⟩ := p
    rw [hc] at hd
    simp only [] at hd ⊢
    by_cases hf : f = "Build-Date".toList
    · subst hf
      repeat rw [if_neg (by decide)]
      rw [if_pos rfl]
      rfl
    · rw [if_neg hf] at hd; cases hd

/-- One step of the loop on two lines that are the same but for the date, from
two records that are the same but for the date. -/
theorem eraseDate_parseLine (std std' : StdLib)
    (hlow : std'.unicodeToLower = std.unicodeToLower) (bi bi' : BuildInfo)
    (he : eraseDate bi' = eraseDate bi) (l l' : Str) (hs : SameButDate l l') :
    eraseDate (parseLine std' bi' l') = eraseDate (parseLine std bi l) := by
  rcases hs with rfl | ⟨h1, h2⟩
  · obtain ⟨d1, s1, b1, v1, a1, o1, t1⟩ := bi
    obtain ⟨d2, s2, b2, v2, a2, o2, t2⟩ := bi'
    simp only [eraseDate, BuildInfo.mk.injEq, and_true] at he
    obtain ⟨rfl, rfl, rfl, rfl, rfl, rfl⟩ := he
    rw [parseLine_eq, parseLine_eq, hlow]
    cases cut ": ".toList l with
    | none => simp only []; split_ifs <;> rfl
    | some p =>
      obtain ⟨f, v⟩ := p
      simp only []
      split_ifs <;> rfl
  · rw [eraseDate_parseLine_date std' bi' l' h2, eraseDate_parseLine_date std bi l h1, he]

theorem eraseDate_foldl_parseLine (std std' : StdLib)
    (hlow : std'.unicodeToLower = std.unicodeToLower) :
    ∀ (ls ls' : List Str), List.Forall₂ SameButDate ls ls' →
      ∀ (bi bi' : BuildInfo), eraseDate bi' = eraseDate bi →
        eraseDate (ls'.foldl (parseLine std') bi') = eraseDate (ls.foldl (parseLine std) bi) := by
  intro ls ls' hall
  induction hall with
  | nil => intro bi bi' he; exact he
  | cons hhead _ ih =>
    intro bi bi' he
    rw [List.foldl_cons, List.foldl_cons]
    exact ih _ _ (eraseDate_parseLine std std' hlow bi bi' he _ _ hhead)

/-- **C11.** `parsebuildInfoBlob` returns a record and never an error, whatever
the text is.  The build date of the record is the date parsed from the value
of the last `Build-Date` line, and the zero time when that value does not
parse in the RFC-1123 numeric-zone format (or when there is no such line);
and all the other fields are as they are for the same text with another date:
two texts whose lines are the same but for the values of their `Build-Date`
lines give records that are the same but for the build date, whether the
dates parse or not. -/
theorem parsebuildInfoBlob_tolerant (std : StdLib) (text : Str) :
    (parsebuildInfoBlob std text).2 = none ∧
    (parsebuildInfoBlob std text).1.BuildDate =
      ((lastValue "Build-Date".toList (Split text "\n".toList)).map
        (fun v => (std.parseRFC1123Z v).getD 0)).getD 0 ∧
    (∀ v, lastValue "Build-Date".toList (Split text "\n".toList) = some v →
      std.parseRFC1123Z v = none → (parsebuildInfoBlob std text).1.BuildDate = 0) ∧
    (∀ (std' : StdLib) (text' : Str), std'.unicodeToLower = std.unicodeToLower →
      List.Forall₂ SameButDate (Split text "\n".toList) (Split text' "\n".toList) →
      eraseDate (parsebuildInfoBlob std' text').1 = eraseDate (parsebuildInfoBlob std text).1) := by
  have hdate : (parsebuildInfoBlob std text).1.BuildDate =
      ((lastValue "Build-Date".toList (Split text "\n".toList)).map
        (fun v => (std.parseRFC1123Z v).getD 0)).getD 0 := by
    unfold parsebuildInfoBlob lastValue
    simp only []
    rw [← List.getLast?_map, List.map_filterMap]
    exact foldl_last (fun bi => bi.BuildDate) _ _ (parseLine_BuildDate std) _ _
  refine ⟨rfl, hdate, ?_, ?_⟩
  · intro v hv hp
    rw [hdate, hv]
    simp [hp]
  · intro std' text' hlow hall
    unfold parsebuildInfoBlob
    simp only []
    exact eraseDate_foldl_parseLine std std' hlow _ _ hall _ _ rfl

/-- Witness of C11: the date `yesterday` does not parse, the build date is the
zero time, and the record is otherwise the one of the text with a date that
parses. -/
theorem parsebuildInfoBlob_tolerant_witness :
    (parsebuildInfoBlob sampleStd badDateBlob).1.BuildDate = 0 ∧
    eraseDate (parsebuildInfoBlob sampleStd goodDateBlob).1 =
      eraseDate (parsebuildInfoBlob sampleStd badDateBlob).1 :=
  ⟨(parsebuildInfoBlob_tolerant sampleStd badDateBlob).2.2.1 "yesterday".toList
      (by decide) (by decide),
   (parsebuildInfoBlob_tolerant sampleStd badDateBlob).2.2.2 sampleStd goodDateBlob rfl
      (by decide)⟩

/-! ## The source reference and the predicates in detail -/

/-- The loop of `getTopLevelPackage` never touches the source, the record or
the dependencies, whether it ends with an error or not. -/
theorem topLevelLoop_frame (h : Helpers) : ∀ (bins : List Str) (b : buildinfoParser),
    (topLevelLoop h bins b).1.source = b.source ∧
    (topLevelLoop h bins b).1.buildinfo = b.buildinfo ∧
    (topLevelLoop h bins b).1.dependencies = b.dependencies := by
  intro bins
  induction bins with
  | nil => intro b; exact ⟨rfl, rfl, rfl⟩
  | cons binary rest ih =>
    intro b
    unfold topLevelLoop
    by_cases hb : binary ≠ []
    · rw [if_pos hb]
      simp only []
      cases h.PurlToPkg (guacBuildInfoPkgPurl h.SanitizeString binary
          b.buildinfo.Version b.buildinfo.Architecture b.buildinfo.Distro) with
      | error err => exact ⟨rfl, rfl, rfl⟩
      | ok pkg => exact ih _
    · rw [if_neg hb]
      exact ⟨rfl, rfl, rfl⟩

/-- The loop of `getDependencies` never touches the source, the record, the
identifiers or the binaries, whether it ends with an error or not. -/
theorem dependenciesLoop_frame (h : Helpers) : ∀ (deps : List Str) (b : buildinfoParser),
    (dependenciesLoop h deps b).1.source = b.source ∧
    (dependenciesLoop h deps b).1.buildinfo = b.buildinfo ∧
    (dependenciesLoop h deps b).1.identifierStrings = b.identifierStrings ∧
    (dependenciesLoop h deps b).1.binaries = b.binaries := by
  intro deps
  induction deps with
  | nil => intro b; exact ⟨rfl, rfl, rfl, rfl⟩
  | cons dep rest ih =>
    intro b
    unfold dependenciesLoop
    simp only []
    by_cases hl : (SplitN dep "(=".toList 2).length ≠ 2
    · rw [if_pos hl]
      exact ⟨rfl, rfl, rfl, rfl⟩
    · rw [if_neg hl]
      cases h.PurlToPkg (guacBuildInfoPkgPurl h.SanitizeString
          ((SplitN dep "(=".toList 2).getD 0 [])
          (TrimRight ((SplitN dep "(=".toList 2).getD 1 []) "),".toList)
          b.buildinfo.Architecture b.buildinfo.Distro) with
      | error err => exact ⟨rfl, rfl, rfl, rfl⟩
      | ok pkg => exact ih _

/-- The inner loop of `GetPredicates` appends one `HasSourceAt` predicate per
package, in order. -/
theorem HasSourceAt_foldl_predicatesOfBinary (h : Helpers) (b : buildinfoParser) :
    ∀ (l : List PkgInputSpec) (preds : IngestPredicates),
      (l.foldl (predicatesOfBinary h b) preds).HasSourceAt =
        preds.HasSourceAt ++ l.map (hasSourceAtOf h b) := by
  intro l
  induction l with
  | nil => intro preds; simp
  | cons x xs ih =>
    intro preds
    rw [List.foldl_cons, ih]
    simp [predicatesOfBinary, hasSourceAtOf]

/-- The `HasSourceAt` predicates of `GetPredicates`: for every identifier of
`PurlStrings` in order, one per package that the map holds for it. -/
theorem HasSourceAt_GetPredicates (h : Helpers) (b : buildinfoParser) :
    (GetPredicates h b).HasSourceAt =
      (b.identifierStrings.map
        (fun p => (sliceMapGet b.binaries p).map (hasSourceAtOf h b))).flatten := by
  unfold GetPredicates
  have key : ∀ (ids : List Str) (preds : IngestPredicates),
      (ids.foldl (fun preds purl =>
          (sliceMapGet b.binaries purl).foldl (predicatesOfBinary h b) preds)
        preds).HasSourceAt =
        preds.HasSourceAt ++
          (ids.map (fun p => (sliceMapGet b.binaries p).map (hasSourceAtOf h b))).flatten := by
    intro ids
    induction ids with
    | nil => intro preds; simp
    | cons x xs ih =>
      intro preds
      rw [List.foldl_cons, ih, HasSourceAt_foldl_predicatesOfBinary]
      simp
  rw [key]
  simp

/-- Counterexample to C13 as stated: for the record with an empty source and
distro `debian`, `getTopLevelPackage` leaves the source reference of the fresh
parser as it is, with an empty type and an empty namespace, not `deb` and
`debian-src`. -/
theorem getTopLevelPackage_source_counterexample :
    ¬ ∀ (h : Helpers) (r : BuildInfo),
        (getTopLevelPackage h (freshWith r)).1.source =
          { Typ := "deb".toList, Namespace := r.Distro ++ "-src".toList, Name := r.Source } := by
  intro hall
  have h1 := hall sampleHelpers noSourceRecord
  revert h1
  decide

/-- **C13, amended.** For a record with a non-empty source, the source
reference that `getTopLevelPackage` sets on a fresh parser is
`{type = "deb", namespace = distro + "-src", name = source}`; for a record
with an empty source it is the empty reference that `NewBuildInfoParser` put
there.  `getDependencies` keeps it, and every `HasSourceAt` predicate of
`GetPredicates` points to the source reference of the parser. -/
theorem getTopLevelPackage_source (h : Helpers) (r : BuildInfo) :
    (getTopLevelPackage h (freshWith r)).1.source =
      (if r.Source ≠ [] then
        { Typ := "deb".toList, Namespace := r.Distro ++ "-src".toList, Name := r.Source }
      else { Typ := [], Namespace := [], Name := [] }) ∧
    (∀ b : buildinfoParser, (getDependencies h b).1.source = b.source) ∧
    (∀ b : buildinfoParser, ∀ a ∈ (GetPredicates h b).HasSourceAt, a.Src = b.source) ∧
    ((getTopLevelPackage sampleHelpers (freshWith sampleRecord)).1.source =
      { Typ := "deb".toList, Namespace := "debian-src".toList, Name := "attr".toList }) := by
  refine ⟨?_, ?_, ?_, by decide⟩
  · unfold getTopLevelPackage
    rw [(topLevelLoop_frame h _ _).1]
    by_cases hs : r.Source ≠ []
    · rw [if_pos hs]
      have : (freshWith r).buildinfo.Source ≠ [] := hs
      rw [if_pos this]
      rfl
    · rw [if_neg hs]
      have : ¬ (freshWith r).buildinfo.Source ≠ [] := hs
      rw [if_neg this]
      rfl
  · intro b
    exact (dependenciesLoop_frame h _ b).1
  · intro b a ha
    rw [HasSourceAt_GetPredicates] at ha
    simp only [List.mem_flatten, List.mem_map, exists_exists_and_eq_and] at ha
    obtain ⟨p, _, x, _, rfl⟩ := ha
    rfl

/-- A run of the loop of `getTopLevelPackage` that ends without error keeps in
the map, under every identifier, only packages that the identifier parser
returned for it, and appends only identifiers that the parser accepted. -/
theorem topLevelLoop_pkgs (h : Helpers) : ∀ (bins : List Str) (b b' : buildinfoParser),
    topLevelLoop h bins b = (b', none) →
    ((∀ p x, x ∈ sliceMapGet b.binaries p → h.PurlToPkg p = .ok x) →
      ∀ p x, x ∈ sliceMapGet b'.binaries p → h.PurlToPkg p = .ok x) ∧
    ((∀ p ∈ b.identifierStrings, (h.PurlToPkg p).isOk = true) →
      ∀ p ∈ b'.identifierStrings, (h.PurlToPkg p).isOk = true) := by
  intro bins
  induction bins with
  | nil =>
    intro b b' hrun
    simp only [topLevelLoop, Prod.mk.injEq, and_true] at hrun
    subst hrun
    exact ⟨fun hx => hx, fun hx => hx⟩
  | cons binary rest ih =>
    intro b b' hrun
    unfold topLevelLoop at hrun
    by_cases hb : binary ≠ []
    · rw [if_pos hb] at hrun
      simp only [] at hrun
      cases hp : h.PurlToPkg (guacBuildInfoPkgPurl h.SanitizeString binary
          b.buildinfo.Version b.buildinfo.Architecture b.buildinfo.Distro) with
      | error err => rw [hp] at hrun; simp at hrun
      | ok pkg =>
        rw [hp] at hrun
        simp only [] at hrun
        obtain ⟨h1, h2⟩ := ih _ b' hrun
        constructor
        · intro hinv
          apply h1
          intro p x hx
          simp only [sliceMapGet_sliceMapSet] at hx
          by_cases hpe : p = guacBuildInfoPkgPurl h.SanitizeString binary
              b.buildinfo.Version b.buildinfo.Architecture b.buildinfo.Distro
          · rw [if_pos hpe, List.mem_append, List.mem_singleton] at hx
            rcases hx with hx | hx
            · rw [hpe]; exact hinv _ x hx
            · rw [hpe, hx]; exact hp
          · rw [if_neg hpe] at hx
            exact hinv p x hx
        · intro hinv
          apply h2
          intro p hmem
          simp only [List.mem_append, List.mem_singleton] at hmem
          rcases hmem with hmem | hmem
          · exact hinv p hmem
          · rw [hmem, hp]; rfl
    · rw [if_neg hb] at hrun
      simp at hrun

/-- The parser after `getTopLevelPackage` has succeeded on a fresh parser that
holds the record `r`. -/
theorem getTopLevelPackage_ok (h : Helpers) (r : BuildInfo) (b₁ : buildinfoParser)
    (htop : getTopLevelPackage h (freshWith r) = (b₁, none)) :
    b₁.identifierStrings = binaryPurls h r ∧ b₁.buildinfo = r ∧ b₁.dependencies = [] ∧
    (∀ p, (sliceMapGet b₁.binaries p).length = (binaryPurls h r).count p) ∧
    (∀ p x, x ∈ sliceMapGet b₁.binaries p → h.PurlToPkg p = .ok x) ∧
    (∀ p ∈ binaryPurls h r, (h.PurlToPkg p).isOk = true) := by
  unfold getTopLevelPackage at htop
  have e1 : (if (freshWith r).buildinfo.Source ≠ [] then
      { freshWith r with
        source :=
          { Typ := "deb".toList
            Namespace := (freshWith r).buildinfo.Distro ++ "-src".toList
            Name := (freshWith r).buildinfo.Source } }
      else freshWith r).identifierStrings = [] := by split <;> rfl
  have e2 : (if (freshWith r).buildinfo.Source ≠ [] then
      { freshWith r with
        source :=
          { Typ := "deb".toList
            Namespace := (freshWith r).buildinfo.Distro ++ "-src".toList
            Name := (freshWith r).buildinfo.Source } }
      else freshWith r).buildinfo = r := by split <;> rfl
  have e3 : (if (freshWith r).buildinfo.Source ≠ [] then
      { freshWith r with
        source :=
          { Typ := "deb".toList
            Namespace := (freshWith r).buildinfo.Distro ++ "-src".toList
            Name := (freshWith r).buildinfo.Source } }
      else freshWith r).binaries = [] := by split <;> rfl
  have e4 : (if (freshWith r).buildinfo.Source ≠ [] then
      { freshWith r with
        source :=
          { Typ := "deb".toList
            Namespace := (freshWith r).buildinfo.Distro ++ "-src".toList
            Name := (freshWith r).buildinfo.Source } }
      else freshWith r).dependencies = [] := by split <;> rfl
  obtain ⟨t1, t2, t3, t4, -⟩ := topLevelLoop_ok h _ _ _ htop
  obtain ⟨u1, u2⟩ := topLevelLoop_pkgs h _ _ _ htop
  rw [e1, e2] at t1
  have hids : b₁.identifierStrings = binaryPurls h r := by rw [t1]; rfl
  refine ⟨hids, by rw [t3, e2], by rw [t4, e4], ?_, ?_, ?_⟩
  · rw [← hids]
    apply t2
    intro p
    rw [e1, e3]
    rfl
  · apply u1
    intro p x hx
    rw [e3] at hx
    cases hx
  · rw [← hids]
    apply u2
    intro p hp
    rw [e1] at hp
    cases hp

theorem flatten_map_eq_map {α β : Type} (F : α → List β) (g : α → β) :
    ∀ ids : List α, (∀ p ∈ ids, F p = [g p]) → (ids.map F).flatten = ids.map g := by
  intro ids
  induction ids with
  | nil => intro _; rfl
  | cons x xs ih =>
    intro hall
    rw [List.map_cons, List.flatten_cons, hall x (List.mem_cons_self _ _), List.map_cons,
      ih (fun p hp => hall p (List.mem_cons_of_mem _ hp))]
    rfl

/-- When the identifiers of the binaries are pairwise distinct, the `HasSourceAt`
predicates of `GetPredicates` are, in the order of the binaries, one per
binary: its package is what the identifier parser returned for the
identifier of the binary, and it carries the build date of the record and
the three constants. -/
theorem GetPredicates_HasSourceAt (h : Helpers) (r : BuildInfo) (b₁ b₂ : buildinfoParser)
    (htop : getTopLevelPackage h (freshWith r) = (b₁, none))
    (hdep : getDependencies h b₁ = (b₂, none))
    (hnd : (binaryPurls h r).Nodup) :
    (GetPredicates h b₂).HasSourceAt.map
        (fun a => (Except.ok a.Pkg : Except Str PkgInputSpec)) =
      (binaryPurls h r).map h.PurlToPkg ∧
    ∀ a ∈ (GetPredicates h b₂).HasSourceAt,
      a.HasSourceAt =
        { KnownSince := r.BuildDate
          Justification := "Binaries are built from source package".toList
          Origin := "Debian BuildInfo Source".toList
          Collector := "Buildinfo file".toList } := by
  obtain ⟨hids, hbi, -, hcount, hpkgs, -⟩ := getTopLevelPackage_ok h r b₁ htop
  have hfr := dependenciesLoop_frame h b₁.buildinfo.InstalledBuildDepends b₁
  unfold getDependencies at hdep
  rw [hdep] at hfr
  obtain ⟨-, f2, f3, f4⟩ := hfr
  simp only [] at f2 f3 f4
  constructor
  · rw [HasSourceAt_GetPredicates, List.map_flatten, List.map_map, f3, f4, hids]
    apply flatten_map_eq_map
    intro p hp
    have hlen : (sliceMapGet b₁.binaries p).length = 1 := by
      rw [hcount p]; exact count_eq_one_of_nodup _ hnd p hp
    cases hl : sliceMapGet b₁.binaries p with
    | nil => rw [hl] at hlen; cases hlen
    | cons x xs =>
      cases xs with
      | cons y ys => rw [hl] at hlen; simp at hlen
      | nil =>
        have := hpkgs p x (by rw [hl]; exact List.mem_cons_self _ _)
        simp [hl, hasSourceAtOf, this]
  · intro a ha
    rw [HasSourceAt_GetPredicates] at ha
    simp only [List.mem_flatten, List.mem_map, exists_exists_and_eq_and] at ha
    obtain ⟨p, _, x, _, rfl⟩ := ha
    simp only [hasSourceAtOf, f2, hbi]

/-- Witness of `GetPredicates_HasSourceAt`: the record of the spec's scenario. -/
theorem GetPredicates_HasSourceAt_witness :
    (GetPredicates sampleHelpers
      (getDependencies sampleHelpers
        (getTopLevelPackage sampleHelpers (freshWith sampleRecord)).1).1).HasSourceAt.map
        (fun a => (Except.ok a.Pkg : Except Str PkgInputSpec)) =
      (binaryPurls sampleHelpers sampleRecord).map sampleHelpers.PurlToPkg :=
  (GetPredicates_HasSourceAt sampleHelpers sampleRecord
    (getTopLevelPackage sampleHelpers (freshWith sampleRecord)).1
    (getDependencies sampleHelpers
      (getTopLevelPackage sampleHelpers (freshWith sampleRecord)).1).1
    (by decide) (by decide) (by decide)).1

/-- **C12.** The code at an input where the claim fails: the text whose
`Binary` line is `attr attr attr-udeb` parses and both steps of `Parse`
succeed, the record has three binaries, and `GetPredicates` returns five
`HasSourceAt` predicates whose packages are named `attr`, `attr`, `attr`,
`attr`, `attr-udeb`: the third predicate has the package of the first binary
`attr`, not of the third binary `attr-udeb`.  Every predicate carries the
build date of the record and the three constants. -/
theorem GetPredicates_third_binary :
    (Parse sampleStd sampleHelpers NewBuildInfoParser ⟨tripleBlob, sampleTag⟩).2 = none ∧
    (Parse sampleStd sampleHelpers NewBuildInfoParser ⟨tripleBlob, sampleTag⟩).1.buildinfo.Binary
      = ["attr".toList, "attr".toList, "attr-udeb".toList] ∧
    (GetPredicates sampleHelpers
      (Parse sampleStd sampleHelpers NewBuildInfoParser
        ⟨tripleBlob, sampleTag⟩).1).HasSourceAt.map (fun a => a.Pkg.Name) =
      ["attr".toList, "attr".toList, "attr".toList, "attr".toList, "attr-udeb".toList] ∧
    ∀ a ∈ (GetPredicates sampleHelpers
      (Parse sampleStd sampleHelpers NewBuildInfoParser
        ⟨tripleBlob, sampleTag⟩).1).HasSourceAt,
      a.HasSourceAt =
        { KnownSince := 63271836245
          Justification := "Binaries are built from source package".toList
          Origin := "Debian BuildInfo Source".toList
          Collector := "Buildinfo file".toList } := by
  decide

/-! ## The identifiers of the dependencies -/

/-- What `TrimRight` removes is a run of characters of the cutset at the end of
the text, and what it leaves does not end with a character of the cutset. -/
theorem TrimRight_spec (s cutset : Str) :
    ∃ u : Str, s = TrimRight s cutset ++ u ∧ (∀ c ∈ u, c ∈ cutset) ∧
      ∀ c, (TrimRight s cutset).getLast? = some c → c ∉ cutset := by
  refine ⟨(s.reverse.takeWhile (fun c => decide (c ∈ cutset))).reverse, ?_, ?_, ?_⟩
  · unfold TrimRight
    rw [← List.reverse_append, List.takeWhile_append_dropWhile, List.reverse_reverse]
  · intro c hc
    rw [List.mem_reverse] at hc
    simpa using List.mem_takeWhile_imp hc
  · intro c hc
    unfold TrimRight at hc
    rw [List.getLast?_reverse] at hc
    have := List.head?_dropWhile_not (fun c => decide (c ∈ cutset)) s.reverse
    rw [hc] at this
    simpa using this

/-- A run of the loop of `getDependencies` that ends without error appends to
the slice of the key `InstalledBuildDepends`, in order, what the identifier
parser returned for the identifier of every spec. -/
theorem dependenciesLoop_pkgs (h : Helpers) : ∀ (deps : List Str) (b b' : buildinfoParser),
    dependenciesLoop h deps b = (b', none) →
    (sliceMapGet b'.dependencies "InstalledBuildDepends".toList).map
        (fun x => (Except.ok x : Except Str PkgInputSpec)) =
      (sliceMapGet b.dependencies "InstalledBuildDepends".toList).map
        (fun x => (Except.ok x : Except Str PkgInputSpec)) ++
      deps.map (fun dep => h.PurlToPkg (dependencyPurl h b.buildinfo dep)) := by
  intro deps
  induction deps with
  | nil =>
    intro b b' hrun
    simp only [dependenciesLoop, Prod.mk.injEq, and_true] at hrun
    subst hrun
    simp
  | cons dep rest ih =>
    intro b b' hrun
    unfold dependenciesLoop at hrun
    simp only [] at hrun
    by_cases hl : (SplitN dep "(=".toList 2).length ≠ 2
    · rw [if_pos hl] at hrun; simp at hrun
    · rw [if_neg hl] at hrun
      cases hp : h.PurlToPkg (guacBuildInfoPkgPurl h.SanitizeString
          ((SplitN dep "(=".toList 2).getD 0 [])
          (TrimRight ((SplitN dep "(=".toList 2).getD 1 []) "),".toList)
          b.buildinfo.Architecture b.buildinfo.Distro) with
      | error err => rw [hp] at hrun; simp at hrun
      | ok pkg =>
        rw [hp] at hrun
        simp only [] at hrun
        rw [ih _ b' hrun]
        simp only [sliceMapGet_sliceMapSet, if_true, List.map_append, List.map_cons,
          List.map_nil, List.append_assoc, List.singleton_append]
        unfold dependencyPurl
        rw [hp]

/-- **C14.** When `getDependencies` succeeds on a parser whose map of
dependencies is empty, the packages it stores are, in order, what the
identifier parser returns for the identifier of every spec, and for a spec
that contains `(=` this identifier is
`guacBuildInfoPkgPurl(name, version, record.architecture, record.distro)`
where `name` is the part of the spec before its first `(=`, unchanged, and
`version` is the part after it trimmed on the right: only a run of `)` and
`,` characters at its end is removed, and what is left does not end with
one.  Architecture and distro are those of the record. -/
theorem getDependencies_identifiers (h : Helpers) (b b' : buildinfoParser)
    (hrun : getDependencies h b = (b', none)) (hempty : b.dependencies = []) :
    (sliceMapGet b'.dependencies "InstalledBuildDepends".toList).map
        (fun x => (Except.ok x : Except Str PkgInputSpec)) =
      b.buildinfo.InstalledBuildDepends.map
        (fun dep => h.PurlToPkg (dependencyPurl h b.buildinfo dep)) ∧
    (∀ dep name rest : Str, cut "(=".toList dep = some (name, rest) →
      dep = name ++ "(=".toList ++ rest ∧
      (∀ a c : Str, dep = a ++ "(=".toList ++ c → name.length ≤ a.length) ∧
      ∃ version u : Str, rest = version ++ u ∧ (∀ c ∈ u, c = ')' ∨ c = ',') ∧
        (∀ c, version.getLast? = some c → c ≠ ')' ∧ c ≠ ',') ∧
        dependencyPurl h b.buildinfo dep =
          guacBuildInfoPkgPurl h.SanitizeString name version
            b.buildinfo.Architecture b.buildinfo.Distro) := by
  constructor
  · unfold getDependencies at hrun
    rw [dependenciesLoop_pkgs h _ b b' hrun, hempty]
    rfl
  · intro dep name rest hc
    refine ⟨cut_some_eq _ _ _ _ hc, cut_some_first _ _ _ _ hc, ?_⟩
    obtain ⟨u, h1, h2, h3⟩ := TrimRight_spec rest "),".toList
    refine ⟨TrimRight rest "),".toList, u, h1, ?_, ?_, ?_⟩
    · intro c hcu
      have := h2 c hcu
      simpa using this
    · intro c hcl
      have := h3 c hcl
      simpa using this
    · unfold dependencyPurl
      rw [SplitN_two, hc]
      rfl

/-- Witness of C14: the record of the spec's scenario; the spec
`gcc(=10.2.1-6),` gives the identifier of `gcc` at version `10.2.1-6`. -/
theorem getDependencies_identifiers_witness :
    (sliceMapGet (getDependencies sampleHelpers (freshWith sampleRecord)).1.dependencies
        "InstalledBuildDepends".toList).map
        (fun x => (Except.ok x : Except Str PkgInputSpec)) =
      [samplePurlToPkg "pkg:deb/debian/gcc@10.2.1-6?arch=amd64".toList,
       samplePurlToPkg "pkg:deb/debian/make@4.3-4?arch=amd64".toList] :=
  (getDependencies_identifiers sampleHelpers (freshWith sampleRecord)
    (getDependencies sampleHelpers (freshWith sampleRecord)).1 (by decide) rfl).1.trans
    (by decide)

/-! ## Identifiers that cannot be built -/

/-- What a successful `Parse` is made of. -/
theorem Parse_ok (std : StdLib) (h : Helpers) (b b' : buildinfoParser) (doc : Document)
    (hrun : Parse std h b doc = (b', none)) :
    ∃ b₁, getTopLevelPackage h
        { b with doc := some doc, buildinfo := (parsebuildInfoBlob std doc.Blob).1 } =
          (b₁, none) ∧
      getDependencies h b₁ = (b', none) := by
  unfold Parse at hrun
  simp only [parsebuildInfoBlob] at hrun ⊢
  rcases htop : getTopLevelPackage h
      { b with doc := some doc
               buildinfo := (Split doc.Blob "\n".toList).foldl (parseLine std) BuildInfo.zero }
    with ⟨b₁, _ | err⟩
  · rw [htop] at hrun
    simp only [] at hrun
    rcases hdep : getDependencies h b₁ with ⟨b₂, _ | err⟩
    · rw [hdep] at hrun
      simp only [Prod.mk.injEq, and_true] at hrun
      exact ⟨b₁, rfl, by rw [hdep, hrun]⟩
    · rw [hdep] at hrun
      simp at hrun
  · rw [htop] at hrun
    simp at hrun

/-- After a successful `getTopLevelPackage` the identifier parser has accepted
every identifier that was added. -/
theorem getTopLevelPackage_accepted (h : Helpers) (b b₁ : buildinfoParser)
    (htop : getTopLevelPackage h b = (b₁, none))
    (hids : ∀ p ∈ b.identifierStrings, (h.PurlToPkg p).isOk = true) :
    ∀ p ∈ b₁.identifierStrings, (h.PurlToPkg p).isOk = true := by
  unfold getTopLevelPackage at htop
  apply (topLevelLoop_pkgs h _ _ _ htop).2
  intro p hp
  apply hids
  revert hp
  split <;> exact fun hp => hp

/-- **C16.** With an identifier parser that rejects the empty identifier: the
identifier that `guacBuildInfoPkgPurl` builds from an empty version is empty
and is rejected; for a record whose version is empty and whose binaries list
is not empty, `getTopLevelPackage` on a fresh parser returns an error and has
added nothing to `PurlStrings` nor to the map of binaries; and after a
successful `Parse` of a fresh parser every string of `PurlStrings` is
non-empty. -/
theorem getTopLevelPackage_empty_version (h : Helpers) (hrej : RejectsEmpty h) :
    (∀ n a d : Str, guacBuildInfoPkgPurl h.SanitizeString n [] a d = [] ∧
      (h.PurlToPkg (guacBuildInfoPkgPurl h.SanitizeString n [] a d)).isOk = false) ∧
    (∀ r : BuildInfo, r.Version = [] → r.Binary ≠ [] →
      (getTopLevelPackage h (freshWith r)).2 ≠ none ∧
      (getTopLevelPackage h (freshWith r)).1.identifierStrings = [] ∧
      (getTopLevelPackage h (freshWith r)).1.binaries = []) ∧
    (∀ (std : StdLib) (doc : Document) (b' : buildinfoParser),
      Parse std h NewBuildInfoParser doc = (b', none) →
      ∀ p ∈ b'.identifierStrings, p ≠ []) := by
  have hpurl : ∀ n a d : Str, guacBuildInfoPkgPurl h.SanitizeString n [] a d = [] := by
    intro n a d
    unfold guacBuildInfoPkgPurl
    simp
  refine ⟨fun n a d => ⟨hpurl n a d, by rw [hpurl]; exact hrej⟩, ?_, ?_⟩
  · intro r hv hb
    obtain ⟨bin, rest, hbin⟩ := List.exists_cons_of_ne_nil hb
    have key : ∀ s₀ : buildinfoParser, s₀.buildinfo = r → s₀.identifierStrings = [] →
        s₀.binaries = [] →
        (topLevelLoop h s₀.buildinfo.Binary s₀).2 ≠ none ∧
        (topLevelLoop h s₀.buildinfo.Binary s₀).1.identifierStrings = [] ∧
        (topLevelLoop h s₀.buildinfo.Binary s₀).1.binaries = [] := by
      intro s₀ h1 h2 h3
      rw [h1, hbin]
      unfold topLevelLoop
      by_cases hne : bin ≠ []
      · rw [if_pos hne]
        simp only []
        rw [h1, hv, hpurl]
        unfold RejectsEmpty at hrej
        cases hp : h.PurlToPkg [] with
        | ok pkg => rw [hp] at hrej; cases hrej
        | error err => exact ⟨by simp, h2, h3⟩
      · rw [if_neg hne]
        exact ⟨by simp, h2, h3⟩
    unfold getTopLevelPackage
    apply key
    · split <;> rfl
    · split <;> rfl
    · split <;> rfl
  · intro std doc b' hrun p hp hnil
    obtain ⟨b₁, htop, hdep⟩ := Parse_ok std h _ b' doc hrun
    have hacc := getTopLevelPackage_accepted h _ b₁ htop (by intro q hq; cases hq)
    have hfr := dependenciesLoop_frame h b₁.buildinfo.InstalledBuildDepends b₁
    unfold getDependencies at hdep
    rw [hdep] at hfr
    have hids : b'.identifierStrings = b₁.identifierStrings := hfr.2.2.1
    rw [hids] at hp
    have := hacc p hp
    rw [hnil] at this
    unfold RejectsEmpty at hrej
    rw [hrej] at this
    cases this

/-- Witness of C16: the stand-in parser rejects the empty identifier, and on the
record of the spec's scenario with an empty version `getTopLevelPackage` fails
without adding an identifier. -/
theorem getTopLevelPackage_empty_version_witness :
    (getTopLevelPackage sampleHelpers (freshWith noVersionRecord)).2 ≠ none ∧
    (getTopLevelPackage sampleHelpers (freshWith noVersionRecord)).1.identifierStrings = [] ∧
    (getTopLevelPackage sampleHelpers (freshWith noVersionRecord)).1.binaries = [] :=
  (getTopLevelPackage_empty_version sampleHelpers
    (by unfold RejectsEmpty; decide)).2.1 noVersionRecord rfl
    (by decide)

/-! ## What the blob parser puts in its lists -/

/-- Every field that `Fields` returns is non-empty and free of whitespace. -/
theorem fieldsAux_entries : ∀ (s cur : Str), (∀ c ∈ cur, isSpace c = false) →
    ∀ f ∈ fieldsAux s cur, f ≠ [] ∧ ∀ c ∈ f, isSpace c = false := by
  intro s
  induction s with
  | nil =>
    intro cur hcur f hf
    unfold fieldsAux at hf
    by_cases hc : cur = []
    · rw [if_pos hc] at hf; cases hf
    · rw [if_neg hc, List.mem_singleton] at hf
      subst hf
      exact ⟨by simpa using hc, fun c hm => hcur c (List.mem_reverse.1 hm)⟩
  | cons x xs ih =>
    intro cur hcur f hf
    unfold fieldsAux at hf
    by_cases hx : isSpace x = true
    · rw [if_pos hx] at hf
      by_cases hc : cur = []
      · rw [if_pos hc] at hf
        exact ih [] (by simp) f hf
      · rw [if_neg hc, List.mem_cons] at hf
        rcases hf with hf | hf
        · subst hf
          exact ⟨by simpa using hc, fun c hm => hcur c (List.mem_reverse.1 hm)⟩
        · exact ih [] (by simp) f hf
    · rw [if_neg hx] at hf
      apply ih (x :: cur) _ f hf
      intro c hm
      rcases List.mem_cons.1 hm with rfl | hm
      · simpa using hx
      · exact hcur c hm

/-- The binaries of a parsed text are the fields of the value of some line, or
there are none. -/
theorem Binary_parsebuildInfoBlob (std : StdLib) (text : Str) :
    (parsebuildInfoBlob std text).1.Binary = [] ∨
    ∃ value : Str, (parsebuildInfoBlob std text).1.Binary = Fields value := by
  have h := foldl_last (fun bi => bi.Binary)
    (fun l => (fieldValue "Binary".toList l).map Fields) (parseLine std)
    (parseLine_Binary std) (Split text "\n".toList) BuildInfo.zero
  unfold parsebuildInfoBlob
  simp only [] at h ⊢
  rw [h]
  cases hl : (List.filterMap (fun l => (fieldValue "Binary".toList l).map Fields)
      (Split text "\n".toList)).getLast? with
  | none => left; rfl
  | some x =>
    right
    have hm := List.mem_of_getLast?_eq_some hl
    rw [List.mem_filterMap] at hm
    obtain ⟨l, _, hx⟩ := hm
    cases hv : fieldValue "Binary".toList l with
    | none => rw [hv] at hx; cases hx
    | some v =>
      rw [hv] at hx
      injection hx with hx
      exact ⟨v, hx.symm⟩

/-- The loop of `getTopLevelPackage` on binaries that are all non-empty: it
ends without error, or with the error that the identifier parser returned
for the identifier of one of the binaries. -/
theorem topLevelLoop_nonempty (h : Helpers) : ∀ (bins : List Str) (b : buildinfoParser),
    (∀ bin ∈ bins, bin ≠ []) →
    (topLevelLoop h bins b).2 = none ∨
    ∃ bin ∈ bins, ∃ err,
      h.PurlToPkg (guacBuildInfoPkgPurl h.SanitizeString bin b.buildinfo.Version
        b.buildinfo.Architecture b.buildinfo.Distro) = .error err ∧
      (topLevelLoop h bins b).2 = some err := by
  intro bins
  induction bins with
  | nil => intro b _; left; rfl
  | cons bin rest ih =>
    intro b hall
    have hb : bin ≠ [] := hall bin (List.mem_cons_self _ _)
    simp only [topLevelLoop]
    rw [if_pos hb]
    cases hp : h.PurlToPkg (guacBuildInfoPkgPurl h.SanitizeString bin b.buildinfo.Version
        b.buildinfo.Architecture b.buildinfo.Distro) with
    | error err =>
      right
      exact ⟨bin, List.mem_cons_self _ _, err, hp, rfl⟩
    | ok pkg =>
      simp only []
      rcases ih _ (fun x hx => hall x (List.mem_cons_of_mem _ hx)) with
        h1 | ⟨x, hx, err, h2, h3⟩
      · left; exact h1
      · right
        exact ⟨x, List.mem_cons_of_mem _ hx, err, h2, h3⟩

/-- **C17.** Every entry of the `Binary` list of `parsebuildInfoBlob(text)` is
non-empty and contains no whitespace; so on a parser that holds such a record
`getTopLevelPackage` never takes the branch of the error
`no binary found in buildinfo document`: it succeeds, or it returns the error
that the identifier parser returned for the identifier of one of the
binaries. -/
theorem parsebuildInfoBlob_Binary_entries (std : StdLib) (text : Str) :
    (∀ bin ∈ (parsebuildInfoBlob std text).1.Binary,
      bin ≠ [] ∧ ∀ c ∈ bin, isSpace c = false) ∧
    (∀ (h : Helpers) (b : buildinfoParser),
      b.buildinfo = (parsebuildInfoBlob std text).1 →
      (getTopLevelPackage h b).2 = none ∨
      ∃ bin ∈ b.buildinfo.Binary, ∃ err,
        h.PurlToPkg (guacBuildInfoPkgPurl h.SanitizeString bin b.buildinfo.Version
          b.buildinfo.Architecture b.buildinfo.Distro) = .error err ∧
        (getTopLevelPackage h b).2 = some err) := by
  have hentries : ∀ bin ∈ (parsebuildInfoBlob std text).1.Binary,
      bin ≠ [] ∧ ∀ c ∈ bin, isSpace c = false := by
    intro bin hbin
    rcases Binary_parsebuildInfoBlob std text with h0 | ⟨v, hv⟩
    · rw [h0] at hbin; cases hbin
    · rw [hv] at hbin
      exact fieldsAux_entries v [] (by simp) bin hbin
  refine ⟨hentries, ?_⟩
  intro h b hb
  unfold getTopLevelPackage
  have key : ∀ s₀ : buildinfoParser, s₀.buildinfo = b.buildinfo →
      (topLevelLoop h s₀.buildinfo.Binary s₀).2 = none ∨
      ∃ bin ∈ b.buildinfo.Binary, ∃ err,
        h.PurlToPkg (guacBuildInfoPkgPurl h.SanitizeString bin b.buildinfo.Version
          b.buildinfo.Architecture b.buildinfo.Distro) = .error err ∧
        (topLevelLoop h s₀.buildinfo.Binary s₀).2 = some err := by
    intro s₀ hs
    have := topLevelLoop_nonempty h s₀.buildinfo.Binary s₀
      (by rw [hs, hb]; exact fun bin hbin => (hentries bin hbin).1)
    rw [hs] at this ⊢
    exact this
  apply key
  split <;> rfl

/-- Removing the spaces of a text that contains `(=` leaves a text that
contains `(=`. -/
theorem Contains_filter_space (l : Str) (hl : Contains l "(=".toList = true) :
    Contains (l.filter (fun c => decide (c ≠ ' '))) "(=".toList = true := by
  unfold Contains at hl ⊢
  rw [decide_eq_true_iff] at hl ⊢
  obtain ⟨a, b, rfl⟩ := hl
  refine ⟨a.filter (fun c => decide (c ≠ ' ')), b.filter (fun c => decide (c ≠ ' ')), ?_⟩
  simp only [List.filter_append]
  rfl

/-- **C18.** Every entry of the `InstalledBuildDepends` list of
`parsebuildInfoBlob(text)` contains `(=` and contains no space character; so
on a parser that holds such a record `getDependencies` never raises the
malformed-dependency error: it succeeds, or it returns the error that the
identifier parser returned for the identifier of one of the specs. -/
theorem parsebuildInfoBlob_InstalledBuildDepends_entries (std : StdLib) (text : Str) :
    (∀ dep ∈ (parsebuildInfoBlob std text).1.InstalledBuildDepends,
      Contains dep "(=".toList = true ∧ ' ' ∉ dep) ∧
    (∀ (h : Helpers) (b : buildinfoParser),
      b.buildinfo = (parsebuildInfoBlob std text).1 →
      (getDependencies h b).2 = none ∨
      ∃ dep ∈ b.buildinfo.InstalledBuildDepends, ∃ err,
        h.PurlToPkg (dependencyPurl h b.buildinfo dep) = .error err ∧
        (getDependencies h b).2 = some err) := by
  have hentries : ∀ dep ∈ (parsebuildInfoBlob std text).1.InstalledBuildDepends,
      Contains dep "(=".toList = true ∧ ' ' ∉ dep := by
    intro dep hdep
    unfold parsebuildInfoBlob at hdep
    simp only [] at hdep
    rw [foldl_parseLine_InstalledBuildDepends] at hdep
    simp only [BuildInfo.zero, List.nil_append, List.mem_map, List.mem_filter,
      Bool.and_eq_true] at hdep
    obtain ⟨l, ⟨_, _, hl⟩, rfl⟩ := hdep
    have e := ReplaceAll_single_nil ' ' l
    have e' : ReplaceAll l " ".toList [] = l.filter (fun c => decide (c ≠ ' ')) := e
    rw [e']
    refine ⟨Contains_filter_space l hl, ?_⟩
    intro hm
    have := (List.mem_filter.1 hm).2
    simp at this
  refine ⟨hentries, ?_⟩
  intro h b hb
  unfold getDependencies
  apply dependenciesLoop_wellformed
  rw [hb]
  exact fun dep hdep => (hentries dep hdep).1

/-! ## Lines that the blob parser ignores -/

theorem cut_single_append (c : Char) : ∀ (a b : Str), c ∉ a →
    cut [c] (a ++ c :: b) = some (a, b) := by
  intro a
  induction a with
  | nil => intro b _; simp [cut]
  | cons x xs ih =>
    intro b hx
    have hne : ¬ (c = x) := fun e => hx (e ▸ List.mem_cons_self _ _)
    have hp : ¬ ([c] <+: x :: (xs ++ c :: b)) := by
      simp [List.cons_prefix_cons, hne]
    rw [List.cons_append, cut, if_neg hp, ih b (fun hm => hx (List.mem_cons_of_mem _ hm))]

theorem cut_single_of_not_mem (c : Char) : ∀ s : Str, c ∉ s → cut [c] s = none := by
  intro s
  induction s with
  | nil => intro _; simp [cut]
  | cons x xs ih =>
    intro hx
    have hne : ¬ (c = x) := fun e => hx (e ▸ List.mem_cons_self _ _)
    have hp : ¬ ([c] <+: x :: xs) := by
      simp [List.cons_prefix_cons, hne]
    rw [cut, if_neg hp, ih (fun hm => hx (List.mem_cons_of_mem _ hm))]

/-- Splitting a joined list of pieces that are free of the separator gives the
pieces back. -/
theorem SplitN_Join (c : Char) : ∀ (ls : List Str), ls ≠ [] → (∀ l ∈ ls, c ∉ l) →
    ∀ n, (Join ls [c]).length < n → SplitN (Join ls [c]) [c] n = ls
  | [], h, _, _, _ => absurd rfl h
  | [a], _, hall, n, hn => by
    have ha : c ∉ a := hall a (List.mem_singleton.2 rfl)
    simp only [Join] at hn ⊢
    match n, hn with
    | 1, _ => rfl
    | n + 2, _ =>
      unfold SplitN
      rw [cut_single_of_not_mem c a ha]
  | a :: b :: rest, _, hall, n, hn => by
    have ha : c ∉ a := hall a (List.mem_cons_self _ _)
    simp only [Join, List.length_append, List.length_singleton] at hn ⊢
    match n, hn with
    | 1, hn => omega
    | n + 2, hn =>
      unfold SplitN
      rw [List.append_assoc, List.singleton_append, cut_single_append c a _ ha]
      simp only []
      rw [SplitN_Join c (b :: rest) (by simp)
        (fun l hl => hall l (List.mem_cons_of_mem _ hl)) (n + 1) (by omega)]

/-- A line that the loop has no case for leaves the record as it is. -/
theorem parseLine_ignoredLine (std : StdLib) (bi : BuildInfo) (line : Str)
    (hl : ignoredLine line = true) : parseLine std bi line = bi := by
  rw [parseLine_eq]
  unfold ignoredLine at hl
  cases hc : cut ": ".toList line with
  | none =>
    rw [hc] at hl
    simp only [Bool.not_eq_true'] at hl
    simp only []
    rw [if_neg (by rw [hl]; simp)]
  | some p =>
    obtain ⟨f, v⟩ := p
    rw [hc] at hl
    simp only [Bool.not_eq_true', decide_eq_false_iff_not, List.mem_cons,
      List.mem_singleton, not_or, List.not_mem_nil, or_false] at hl
    obtain ⟨h1, h2, h3, h4, h5, h6⟩ := hl
    simp only []
    rw [if_neg h1, if_neg h2, if_neg h3, if_neg h4, if_neg h5, if_neg h6]

theorem foldl_parseLine_filter (std : StdLib) : ∀ (ls : List Str) (bi : BuildInfo),
    (ls.filter (fun l => !ignoredLine l)).foldl (parseLine std) bi =
      ls.foldl (parseLine std) bi := by
  intro ls
  induction ls with
  | nil => intro bi; rfl
  | cons l ls ih =>
    intro bi
    rw [List.filter_cons]
    by_cases hl : ignoredLine l = true
    · rw [hl]
      simp only [Bool.not_true, Bool.false_eq_true, if_false, List.foldl_cons]
      rw [parseLine_ignoredLine std bi l hl]
      exact ih bi
    · have hl' : ignoredLine l = false := by simpa using hl
      rw [hl']
      simp only [Bool.not_false, if_true, List.foldl_cons]
      exact ih _

/-- **C15.** A line that is split by `": "` into a field name other than
`Source`, `Binary`, `Version`, `Build-Architecture`, `Build-Origin` and
`Build-Date`, and a line that has no `": "` and does not contain `(=`, leave
the record unchanged; and `parsebuildInfoBlob` of a text equals
`parsebuildInfoBlob` of the text with all such lines deleted. -/
theorem parsebuildInfoBlob_ignored (std : StdLib) (text : Str) :
    (∀ (bi : BuildInfo) (line : Str), ignoredLine line = true →
      parseLine std bi line = bi) ∧
    parsebuildInfoBlob std
        (Join ((Split text "\n".toList).filter (fun l => !ignoredLine l)) "\n".toList) =
      parsebuildInfoBlob std text := by
  refine ⟨parseLine_ignoredLine std, ?_⟩
  unfold parsebuildInfoBlob
  simp only [Prod.mk.injEq, and_true]
  rw [← foldl_parseLine_filter std (Split text "\n".toList)]
  cases hf : (Split text "\n".toList).filter (fun l => !ignoredLine l) with
  | nil =>
    have e : Split (Join [] "\n".toList) "\n".toList = [[]] := rfl
    rw [e, List.foldl_cons, List.foldl_nil, List.foldl_nil]
    exact parseLine_ignoredLine std _ [] (by decide)
  | cons l ls =>
    have hnl : ∀ x ∈ l :: ls, '\n' ∉ x := by
      intro x hx
      rw [← hf] at hx
      exact (Split_newline_spec text).1 x (List.mem_filter.1 hx).1
    have e : Split (Join (l :: ls) "\n".toList) "\n".toList = l :: ls :=
      SplitN_Join '\n' (l :: ls) (by simp) hnl _ (Nat.lt_succ_self _)
    rw [e]

/-- **C19.** Passing validation does not guarantee a populated record: in the
text `colonOnlyBlob` every required name is followed by a colon and no line
contains a colon followed by a space; correctly tagged, it is accepted by
`ValidateSchema` whatever order the map is visited in, and `parsebuildInfoBlob`
returns for it the record with empty source, binaries, version and build
dependencies. -/
theorem ValidateSchema_accepts_unparsed :
    (∀ f ∈ expectedKeys, ∃ line ∈ Split colonOnlyBlob "\n".toList,
      f ++ ":".toList <+: line) ∧
    (∀ line ∈ Split colonOnlyBlob "\n".toList, Contains line ": ".toList = false) ∧
    (∀ order : List Str, order.Perm expectedKeys →
      ValidateSchema sampleTag order ⟨colonOnlyBlob, sampleTag⟩ = .ok ()) ∧
    (∀ std : StdLib,
      (parsebuildInfoBlob std colonOnlyBlob).1.Source = [] ∧
      (parsebuildInfoBlob std colonOnlyBlob).1.Binary = [] ∧
      (parsebuildInfoBlob std colonOnlyBlob).1.Version = [] ∧
      (parsebuildInfoBlob std colonOnlyBlob).1.InstalledBuildDepends = []) := by
  refine ⟨by decide, by decide, ?_, ?_⟩
  · intro order horder
    rw [ValidateSchema_eq sampleTag order _ horder rfl]
    have hnone : firstMissing colonOnlyBlob order = none :=
      (firstMissing_none_iff colonOnlyBlob order horder).2 (by decide)
    simp only [hnone]
  · intro std
    have hzero : (parsebuildInfoBlob std colonOnlyBlob).1 = BuildInfo.zero := by
      unfold parsebuildInfoBlob
      simp only []
      rw [← foldl_parseLine_filter std]
      have : (Split colonOnlyBlob "\n".toList).filter (fun l => !ignoredLine l) = [] := by
        decide
      rw [this]
      rfl
    rw [hzero]
    exact ⟨rfl, rfl, rfl, rfl⟩

/-! ## Decomposing the identifiers that the builder makes -/

theorem cut_append_left (c : Char) (cs r : Str) :
    cut (c :: cs) ((c :: cs) ++ r) = some ([], r) := by
  rw [List.cons_append, cut, if_pos (by simp)]
  simp

theorem cut_of_head_not_mem (c : Char) (cs : Str) : ∀ (a b : Str), c ∉ a →
    cut (c :: cs) (a ++ ((c :: cs) ++ b)) = some (a, b) := by
  intro a
  induction a with
  | nil => intro b _; exact cut_append_left c cs b
  | cons x xs ih =>
    intro b hx
    have hne : ¬ (c = x) := fun e => hx (e ▸ List.mem_cons_self _ _)
    have hp : ¬ (c :: cs <+: x :: (xs ++ ((c :: cs) ++ b))) := by
      simp [List.cons_prefix_cons, hne]
    rw [List.cons_append, cut, if_neg hp, ih b (fun hm => hx (List.mem_cons_of_mem _ hm))]

theorem cut_none_of_head_not_mem (c : Char) (cs : Str) (s : Str) (hc : c ∉ s) :
    cut (c :: cs) s = none := by
  rw [cut_eq_none_iff]
  rintro ⟨a, b, rfl⟩
  apply hc
  simp

/-- What the modelled identifier parser returns for an identifier that the
builder made from a non-empty version without `?`, a distro without `/` and a
name whose sanitized form has no `@`. -/
theorem PurlToPkgModel_guacBuildInfoPkgPurl (SanitizeString : Str → Str) (n v a d : Str)
    (hn : '@' ∉ SanitizeString n) (hd : '/' ∉ d) (hv : v ≠ []) (hq : '?' ∉ v) :
    PurlToPkgModel (guacBuildInfoPkgPurl SanitizeString n v a d) =
      .ok { Typ := "deb".toList, Namespace := d, Name := SanitizeString n, Version := v,
            Qualifiers := if a = [] then [] else [("arch".toList, a)] } := by
  rw [guacBuildInfoPkgPurl_shape _ _ _ _ _ hv]
  have h0 : cut "pkg:".toList ("pkg:deb/".toList ++ ((d ++ '/' :: SanitizeString n) ++
        '@' :: (v ++ if a = [] then [] else '?' :: ("arch=".toList ++ a)))) =
      some ([], "deb".toList ++ '/' :: ((d ++ '/' :: SanitizeString n) ++
        '@' :: (v ++ if a = [] then [] else '?' :: ("arch=".toList ++ a)))) :=
    cut_append_left 'p' "kg:".toList _
  have h1 : cut "/".toList ("deb".toList ++ '/' :: ((d ++ '/' :: SanitizeString n) ++
        '@' :: (v ++ if a = [] then [] else '?' :: ("arch=".toList ++ a)))) =
      some ("deb".toList, (d ++ '/' :: SanitizeString n) ++
        '@' :: (v ++ if a = [] then [] else '?' :: ("arch=".toList ++ a))) :=
    cut_single_append '/' "deb".toList _ (by decide)
  have h2 : cut "/".toList ((d ++ '/' :: SanitizeString n) ++
        '@' :: (v ++ if a = [] then [] else '?' :: ("arch=".toList ++ a))) =
      some (d, SanitizeString n ++
        '@' :: (v ++ if a = [] then [] else '?' :: ("arch=".toList ++ a))) := by
    have := cut_single_append '/' d (SanitizeString n ++
        '@' :: (v ++ if a = [] then [] else '?' :: ("arch=".toList ++ a))) hd
    rw [← this]
    simp [List.append_assoc]
  have h3 : cut "@".toList (SanitizeString n ++
        '@' :: (v ++ if a = [] then [] else '?' :: ("arch=".toList ++ a))) =
      some (SanitizeString n, v ++ if a = [] then [] else '?' :: ("arch=".toList ++ a)) :=
    cut_single_append '@' _ _ hn
  unfold PurlToPkgModel
  rw [h0]
  simp only []
  rw [h1]
  simp only []
  rw [h2]
  simp only []
  rw [h3]
  simp only []
  by_cases ha : a = []
  · have h4 : cut "?arch=".toList (v ++ if a = [] then [] else '?' :: ("arch=".toList ++ a)) =
        none := by
      rw [if_pos ha, List.append_nil]
      exact cut_none_of_head_not_mem '?' "arch=".toList v hq
    rw [h4, if_pos ha]
    simp [ha]
  · have h4 : cut "?arch=".toList (v ++ if a = [] then [] else '?' :: ("arch=".toList ++ a)) =
        some (v, a) := by
      rw [if_neg ha]
      exact cut_of_head_not_mem '?' "arch=".toList v a hq
    rw [h4, if_neg ha]
    simp [ha]

/-- Excluding `?` from the version is not enough, whatever the identifier
parser and the sanitizer are: with `s` the sanitized name `attr`, the
versions `1` and `2` have no `?`, yet version `1` with architecture
`x/s@2` and distro `a` builds the same identifier as version `2` with no
architecture and distro `a/s@1?arch=x`, a distro with a `/`. -/
theorem RoundTrips_needs_distro :
    ¬ ∃ h : Helpers, ∀ n v a d : Str, v ≠ [] → '?' ∉ v → RoundTrips h n v a d := by
  rintro ⟨h, hall⟩
  obtain ⟨p₁, hp₁, -, hv₁, -⟩ :=
    hall "attr".toList "1".toList
      ("x/".toList ++ h.SanitizeString "attr".toList ++ "@2".toList) "a".toList
      (by decide) (by decide)
  obtain ⟨p₂, hp₂, -, hv₂, -⟩ :=
    hall "attr".toList "2".toList []
      ("a/".toList ++ h.SanitizeString "attr".toList ++ "@1?arch=x".toList)
      (by decide) (by decide)
  have hsame : guacBuildInfoPkgPurl h.SanitizeString "attr".toList "1".toList
        ("x/".toList ++ h.SanitizeString "attr".toList ++ "@2".toList) "a".toList =
      guacBuildInfoPkgPurl h.SanitizeString "attr".toList "2".toList []
        ("a/".toList ++ h.SanitizeString "attr".toList ++ "@1?arch=x".toList) := by
    unfold guacBuildInfoPkgPurl
    rw [if_pos ⟨by decide, by simp⟩, if_neg (by simp), if_pos (by decide)]
    simp [List.append_assoc]
  rw [hsame, hp₂] at hp₁
  injection hp₁ with hp
  rw [hp, hv₁] at hv₂
  revert hv₂
  decide

/-- A name with an `@` that the sanitizer leaves unchanged does not round-trip,
whatever the identifier parser is: the name `a@b` at version `1` builds the
same identifier as the name `a` at version `b@1`. -/
theorem RoundTrips_needs_name :
    ¬ ∃ h : Helpers, (∀ n, h.SanitizeString n = n) ∧
      ∀ n v a d : Str, v ≠ [] → '?' ∉ v → '/' ∉ d → RoundTrips h n v a d := by
  rintro ⟨h, hS, hall⟩
  obtain ⟨p₁, hp₁, hn₁, -⟩ :=
    hall "a@b".toList "1".toList [] "x".toList (by decide) (by decide) (by decide)
  obtain ⟨p₂, hp₂, hn₂, -⟩ :=
    hall "a".toList "b@1".toList [] "x".toList (by decide) (by decide) (by decide)
  have hsame : guacBuildInfoPkgPurl h.SanitizeString "a@b".toList "1".toList []
        "x".toList =
      guacBuildInfoPkgPurl h.SanitizeString "a".toList "b@1".toList [] "x".toList := by
    unfold guacBuildInfoPkgPurl
    rw [if_neg (by simp), if_pos (by decide), if_neg (by simp), if_pos (by decide),
      hS, hS]
    decide
  rw [hsame, hp₂] at hp₁
  injection hp₁ with hp
  rw [hp, hn₁] at hn₂
  revert hn₂
  decide

/-- With the modelled parser, a name that the sanitizer changes does not
round-trip: the name recovered is the sanitized one. -/
theorem RoundTrips_needs_unchanged_name (h : Helpers) (n v a d : Str)
    (hP : h.PurlToPkg = PurlToPkgModel) (hn : '@' ∉ h.SanitizeString n)
    (hd : '/' ∉ d) (hv : v ≠ []) (hq : '?' ∉ v) (hrt : RoundTrips h n v a d) :
    h.SanitizeString n = n := by
  obtain ⟨pkg, hp, hname, -⟩ := hrt
  rw [hP, PurlToPkgModel_guacBuildInfoPkgPurl h.SanitizeString n v a d hn hd hv hq] at hp
  injection hp with hp
  rw [← hp] at hname
  exact hname

end Buildinfo
